import Mathlib

/-!
# Trigger dispatch (`function/subscriber.go`) and document creation (`db.go`)

A shallow embedding of `Subscriber.Start`, `Subscriber.process`,
`Subscriber.handleRealtimeEvents` and `Database.add`.

Conventions of the embedding.

* Go maps (`sync.Map`, `map[string]interface{}`, the key/value cache) are
  association lists read through `GoMap.get`; `GoMap.set` and `GoMap.del` are the
  store and delete operations.
* Every function returns the new state together with the list of calls it made
  to its collaborators, in program order (`Effect`).
* A `go` statement is recorded as an effect; what the goroutine does later is
  described by separate definitions (`expire`, `dataAfter`, `executedWith`).
-/

namespace Core

/-! ## Go maps -/

/-- A Go map with string keys, as an association list. -/
abbrev GoMap (V : Type) := List (String × V)

namespace GoMap

variable {V : Type}

/-- Map lookup, `v, ok := m[k]` (also `sync.Map.Load`). -/
def get : GoMap V → String → Option V
  | [], _ => none
  | (k', v) :: rest, k => if k' = k then some v else get rest k

/-- Removal of a key, `delete(m, k)` (also `sync.Map.Delete`). -/
def del (m : GoMap V) (k : String) : GoMap V :=
  m.filter (fun p => !(p.1 == k))

/-- Assignment, `m[k] = v` (also `sync.Map.Store`). -/
def set (m : GoMap V) (k : String) (v : V) : GoMap V :=
  (k, v) :: del m k

end GoMap

/-! ## Data model -/

/-- The identity carried by an event, `model.Auth`. -/
structure Auth where
  UserID : String
  AccountID : String
  Role : Int
  deriving DecidableEq, Repr

/-- An event, `model.Command`; `Type_` is its field `Type`. -/
structure Command where
  Type_ : String
  Channel : String
  Token : String
  Auth : Auth
  Data : String
  deriving DecidableEq, Repr

/-- Modelled from the spec: `model.ExecData`, the function definition (stable
identifier, human-readable name, trigger channel, executable content). -/
structure ExecData where
  ID : String
  FunctionName : String
  TriggerTopic : String
  Code : String
  deriving DecidableEq, Repr

/-- The message type constants of package `model` used by `process`; their
string values are not part of the sources, so they are a parameter. -/
structure MsgTypes where
  MsgTypeChanOut : String
  MsgTypeDBCreated : String
  MsgTypeDBUpdated : String
  MsgTypeDBDeleted : String

/-- A value held by the `relax` map (`sync.Map` stores values of type `any`):
either an `int64`, or a value of another dynamic type. -/
inductive AnyVal where
  | int64 (n : Int)
  | foreign (tag : String)
  deriving DecidableEq, Repr

/-- A value held by the shared cache: a list of function ids (written by
`SetTyped(key, ids)`) or a function definition (written by
`SetTyped("fn_"+id, fn)`). -/
inductive CacheVal where
  | ids (l : List String)
  | fn (d : ExecData)
  deriving DecidableEq, Repr

/-- Log levels of the logger. -/
inductive Level where
  | info
  | warn
  | error
  deriving DecidableEq, Repr

/-- The calls a subscriber makes to its collaborators. -/
inductive Effect where
  /-- The call `sub.GetExecEnv(msg)`. -/
  | getExecEnv (msg : Command)
  /-- The call `sub.PubSub.GetTyped(key, _)`. -/
  | cacheGet (key : String)
  /-- The call `sub.PubSub.SetTyped(key, _)`. -/
  | cacheSet (key : String)
  /-- The call `exe.DataStore.ListFunctionsByTrigger(base, channel)`. -/
  | listFunctionsByTrigger (base channel : String)
  /-- The assignment `exe.Data = fn` through the pointer `exe`. -/
  | setData (fn : ExecData)
  /-- The statement `go func(ex) ... ex.Execute(msg) ... (exe)`: a goroutine is
  launched that holds the pointer `exe`. -/
  | goExecute (msg : Command)
  /-- The statement `go func(key) ... sleep 60s; sub.relax.Delete(key) ... (key)`. -/
  | goExpire (key : String)
  /-- The call `go sub.PubSub.Subscribe(receiver, "", topic, close)`. -/
  | subscribe (topic : String)
  /-- A log record. -/
  | log (level : Level) (text : String)
  deriving DecidableEq, Repr

/-- The execution context returned by `GetExecEnv`: the tenant name, the
`ListFunctionsByTrigger` operation of its data store, and the function
definition it is to run (`Data`, assigned by the dispatch loop). -/
structure ExecutionEnvironment where
  BaseName : String
  ListFunctionsByTrigger : String → String → Except String (List ExecData)

/-- Modelled from the spec: `cache.Volatilizer`, typed get/set by string key.
`writeFails key` tells whether `SetTyped` on that key returns an error. -/
structure Volatilizer where
  writeFails : String → Bool

/-- The subscriber, `Subscriber`, without its mutable `relax` map (which is
part of `World`). -/
structure Subscriber where
  PubSub : Volatilizer
  GetExecEnv : Command → Except String ExecutionEnvironment
  IsPrimaryInstance : Bool

/-- The mutable state: the `relax` map of the subscriber and the contents of the
cache behind `PubSub`. -/
structure World where
  relax : GoMap AnyVal
  cache : GoMap CacheVal
  deriving DecidableEq, Repr

/-! ## The cache operations -/

/-- The call `GetTyped(key, &ids)` with `ids : []string`: an error when the key
is absent or does not hold a list of ids. -/
def Volatilizer.getIds (c : GoMap CacheVal) (key : String) : Except String (List String) :=
  match GoMap.get c key with
  | some (.ids l) => .ok l
  | some (.fn _) => .error "cannot decode"
  | none => .error "not found"

/-- The call `GetTyped(key, &fn)` with `fn : model.ExecData`: an error when the
key is absent or does not hold a function definition. -/
def Volatilizer.getFn (c : GoMap CacheVal) (key : String) : Except String ExecData :=
  match GoMap.get c key with
  | some (.fn d) => .ok d
  | some (.ids _) => .error "cannot decode"
  | none => .error "not found"

/-- The call `SetTyped(key, v)`: an error that leaves the cache as it is, or
the cache with `key` bound to `v`. -/
def Volatilizer.SetTyped (ps : Volatilizer) (c : GoMap CacheVal) (key : String)
    (v : CacheVal) : Except String (GoMap CacheVal) :=
  if ps.writeFails key then .error "write failed" else .ok (GoMap.set c key v)

/-! ## `Subscriber.handleRealtimeEvents` -/

/-- Lines 99-106: the loop `for _, fn := range funcs` that writes each function
under `"fn_"+fn.ID` and appends its id to `ids`. The third component is `none`
when a write failed and the function returned, and the list of ids otherwise. -/
def cacheFunctions (ps : Volatilizer) :
    List ExecData → GoMap CacheVal → List String →
      GoMap CacheVal × List Effect × Option (List String)
  | [], c, ids => (c, [], some ids)
  | fn :: rest, c, ids =>
    match ps.SetTyped c ("fn_" ++ fn.ID) (.fn fn) with
    | .error _ =>
      (c, [.cacheSet ("fn_" ++ fn.ID), .log .error "error adding function  to cache"], none)
    | .ok c' =>
      let r := cacheFunctions ps rest c' (ids ++ [fn.ID])
      (r.1, .cacheSet ("fn_" ++ fn.ID) :: r.2.1, r.2.2)

/-- Lines 113-126: the loop `for _, id := range ids` that reads each function
from the cache, assigns it to `exe.Data` and launches a goroutine holding
`exe`; it returns at the first failed read. The cache is only read. -/
def dispatch (msg : Command) (c : GoMap CacheVal) : List String → List Effect
  | [] => []
  | id :: rest =>
    match Volatilizer.getFn c ("fn_" ++ id) with
    | .error _ =>
      [.cacheGet ("fn_" ++ id), .log .error "error getting function out of cache"]
    | .ok fn =>
      .cacheGet ("fn_" ++ id) :: .setData fn :: .goExecute msg :: dispatch msg c rest

/-- The function `Subscriber.handleRealtimeEvents`. -/
def Subscriber.handleRealtimeEvents (sub : Subscriber) (msg : Command) (w : World) :
    World × List Effect :=
  match sub.GetExecEnv msg with
  | .error _ =>
    (w, [.getExecEnv msg, .log .error "cannot retrieve base from token"])
  | .ok exe =>
    let key := exe.BaseName ++ ":" ++ msg.Channel
    match Volatilizer.getIds w.cache key with
    | .ok ids =>
      (w, .getExecEnv msg :: .cacheGet key :: dispatch msg w.cache ids)
    | .error _ =>
      match exe.ListFunctionsByTrigger exe.BaseName msg.Channel with
      | .error _ =>
        (w, [.getExecEnv msg, .cacheGet key,
             .listFunctionsByTrigger exe.BaseName msg.Channel,
             .log .error "error getting functions by trigger"])
      | .ok funcs =>
        let r := cacheFunctions sub.PubSub funcs w.cache []
        match r.2.2 with
        | none =>
          ({ w with cache := r.1 },
            .getExecEnv msg :: .cacheGet key ::
              .listFunctionsByTrigger exe.BaseName msg.Channel :: r.2.1)
        | some ids =>
          match sub.PubSub.SetTyped r.1 key (.ids ids) with
          | .error _ =>
            ({ w with cache := r.1 },
              .getExecEnv msg :: .cacheGet key ::
                .listFunctionsByTrigger exe.BaseName msg.Channel ::
                  (r.2.1 ++ .cacheSet key :: .log .error "unable to publish message" ::
                    dispatch msg r.1 ids))
          | .ok c2 =>
            ({ w with cache := c2 },
              .getExecEnv msg :: .cacheGet key ::
                .listFunctionsByTrigger exe.BaseName msg.Channel ::
                  (r.2.1 ++ .cacheSet key :: dispatch msg c2 ids))

/-! ## `Subscriber.process` -/

/-- The `case` list of the `switch msg.Type` in `process`. -/
def MsgTypes.isSystem (mt : MsgTypes) (t : String) : Bool :=
  t == mt.MsgTypeChanOut || t == mt.MsgTypeDBCreated ||
    t == mt.MsgTypeDBUpdated || t == mt.MsgTypeDBDeleted

/-- The function `Subscriber.process`. The counter is an `int64` below 5 when it
is incremented, so `n + 1` does not wrap. -/
def Subscriber.process (sub : Subscriber) (mt : MsgTypes) (msg : Command) (w : World) :
    World × List Effect :=
  if mt.isSystem msg.Type_ then
    sub.handleRealtimeEvents msg w
  else
    let loaded := GoMap.get w.relax msg.Auth.UserID
    let v : AnyVal := match loaded with
      | some x => x
      | none => .int64 0
    let pre : List Effect := match loaded with
      | some _ => []
      | none => [.goExpire msg.Auth.UserID]
    match v with
    | .foreign _ =>
      (w, pre ++ [.log .warn "subscriber.process(): unable to cast into int64"])
    | .int64 n =>
      if n ≥ 5 then
        (w, pre ++ [.log .warn "user exeeded amount of allowed message in 60 second"])
      else
        let r := sub.handleRealtimeEvents msg
          { w with relax := GoMap.set w.relax msg.Auth.UserID (.int64 (n + 1)) }
        (r.1, pre ++ r.2)

/-- The body of the goroutine launched by `process` for a new counter, once its
60 seconds have passed: `sub.relax.Delete(key)`. -/
def expire (key : String) (w : World) : World :=
  { w with relax := GoMap.del w.relax key }

/-- Events run through `process` one after another; the result is the final
state and the effects of each event, in order. -/
def Subscriber.processAll (sub : Subscriber) (mt : MsgTypes) :
    List Command → World → World × List (List Effect)
  | [], w => (w, [])
  | m :: rest, w =>
    let r := sub.process mt m w
    let r2 := processAll sub mt rest r.1
    (r2.1, r.2 :: r2.2)

/-! ## `Subscriber.Start` -/

/-- What the `select` of `Start` can receive: an event on `receiver`, or a
value on `close`. -/
inductive Signal where
  | msg (m : Command)
  | closed
  deriving DecidableEq, Repr

/-- One iteration of the `for`/`select` loop of `Start`. The goroutine of
`go sub.process(msg)` is run to completion at once. -/
def Subscriber.receive (sub : Subscriber) (mt : MsgTypes) (s : Signal) (w : World) :
    World × List Effect :=
  match s with
  | .msg m => if sub.IsPrimaryInstance then sub.process mt m w else (w, [])
  | .closed => (w, [.log .info "system event channel closed?!?"])

/-- The loop of `Start` over the signals it receives. The loop has no `return`
or `break`: after the last signal of the list it is blocked in `select`. -/
def Subscriber.loop (sub : Subscriber) (mt : MsgTypes) :
    List Signal → World → World × List Effect
  | [], w => (w, [])
  | s :: rest, w =>
    let r := sub.receive mt s w
    let r2 := loop sub mt rest r.1
    (r2.1, r.2 ++ r2.2)

/-- The function `Subscriber.Start`, on the signals delivered to it. -/
def Subscriber.Start (sub : Subscriber) (mt : MsgTypes) (signals : List Signal) (w : World) :
    World × List Effect :=
  let r := sub.loop mt signals w
  (r.1, .subscribe "sbsys" :: r.2)

/-! ## Observations on effect lists -/

/-- Whether `handleRealtimeEvents` was entered: its first statement is the only
call of `GetExecEnv`. -/
def invoked (effs : List Effect) : Bool :=
  effs.any (fun e => match e with
    | .getExecEnv _ => true
    | _ => false)

/-- The state of `u`-s counter: absent when `c = 0`, the `int64` value `c`
otherwise. -/
def hasCount (w : World) (u : String) (c : Nat) : Prop :=
  GoMap.get w.relax u = if c = 0 then none else some (.int64 (c : Int))

instance (w : World) (u : String) (c : Nat) : Decidable (hasCount w u c) :=
  inferInstanceAs (Decidable (GoMap.get w.relax u = if c = 0 then none else some (.int64 (c : Int))))

/-- The number of effects of a list that satisfy a test. -/
def count (p : Effect → Bool) (effs : List Effect) : Nat := effs.countP p

/-- A call of `ListFunctionsByTrigger`. -/
def Effect.isStoreLookup : Effect → Bool
  | .listFunctionsByTrigger _ _ => true
  | _ => false

/-- A call of `GetTyped`. -/
def Effect.isCacheGet : Effect → Bool
  | .cacheGet _ => true
  | _ => false

/-- A call of `SetTyped`. -/
def Effect.isCacheSet : Effect → Bool
  | .cacheSet _ => true
  | _ => false

/-- A goroutine launched to execute a function. -/
def Effect.isGoExecute : Effect → Bool
  | .goExecute _ => true
  | _ => false

/-- A goroutine launched to delete a counter after 60 seconds. -/
def Effect.isGoExpire : Effect → Bool
  | .goExpire _ => true
  | _ => false

/-! ## Concrete inputs -/

/-- Message type constants for the concrete inputs. -/
def exampleTypes : MsgTypes := ⟨"chan_out", "db_created", "db_updated", "db_deleted"⟩

/-- A user-triggered event of user `u1` on channel `orders`. -/
def userEvent : Command := ⟨"chan_in", "orders", "tok", ⟨"u1", "a1", 0⟩, "hello"⟩

/-- A system event (document created) caused by user `u1` on channel `orders`. -/
def systemEvent : Command := ⟨"db_created", "orders", "tok", ⟨"u1", "a1", 0⟩, "doc"⟩

/-- The state with no counter and an empty cache. -/
def emptyWorld : World := ⟨[], []⟩

/-- Two functions registered on channel `orders`. -/
def f1 : ExecData := ⟨"f1", "first", "orders", "code1"⟩

/-- The second function registered on channel `orders`. -/
def f2 : ExecData := ⟨"f2", "second", "orders", "code2"⟩

/-- The execution context of tenant `T`, whose store holds `f1` and `f2` for
every channel. -/
def tenantT : ExecutionEnvironment := ⟨"T", fun _ _ => .ok [f1, f2]⟩

/-- A primary instance whose tokens resolve to tenant `T` and whose cache
writes succeed. -/
def primarySub : Subscriber := ⟨⟨fun _ => false⟩, fun _ => .ok tenantT, true⟩

/-- The same subscriber on an instance that is not the primary. -/
def replicaSub : Subscriber := ⟨⟨fun _ => false⟩, fun _ => .ok tenantT, false⟩

/-! ## What the goroutines of a call observe -/

/-- The field `exe.Data` once the first `t` effects of a call have happened:
the function of the last `exe.Data = fn` among them. -/
def dataAfter (effs : List Effect) (t : Nat) : Option ExecData :=
  (effs.take t).foldl (fun cur e => match e with
    | .setData fn => some fn
    | _ => cur) none

/-- The positions, from `start`, of the `go ... ex.Execute(msg)` statements. -/
def goPositions : List Effect → Nat → List Nat
  | [], _ => []
  | .goExecute _ :: rest, start => start :: goPositions rest (start + 1)
  | _ :: rest, start => goPositions rest (start + 1)

/-- The definitions at launch: `exe.Data` as it is when each goroutine is
started by its `go` statement. -/
def scheduled (effs : List Effect) : List (Option ExecData) :=
  (goPositions effs 0).map (fun p => dataAfter effs (p + 1))

/-- The definitions at execution: every goroutine holds the pointer `exe` of
the call, so its `ex.Execute(msg)` reads `exe.Data` as it is when it runs; the
`k`-th goroutine runs after the caller went on for `delays[k]` more effects. -/
def executedWith (effs : List Effect) (delays : List Nat) : List (Option ExecData) :=
  List.zipWith (fun p d => dataAfter effs (p + 1 + d)) (goPositions effs 0) delays

/-! ## `Database.add` -/

/-- Modelled from the spec: the constant `internal.FieldID`, declared outside the
sources; `get` and `list` copy `result["_id"]` to `result["id"]` and then
delete `internal.FieldID`. -/
def FieldID : String := "_id"

/-- Modelled from the spec: the constant `internal.FieldAccountID`, declared
outside the sources; `list` filters on the literal `"accountId"`. -/
def FieldAccountID : String := "accountId"

/-- Modelled from the spec: the constant `internal.FieldOwnerID`, declared
outside the sources. -/
def FieldOwnerID : String := "ownerId"

/-- The caller as `middleware.Extract` returns it; ids are values of the
document value type `V` (Go-s `interface{}`). -/
structure Caller (V : Type) where
  AccountID : V
  UserID : V
  Role : Int

/-- The tenant configuration, `BaseConfig`. -/
structure BaseConfig where
  ID : String
  Name : String
  Whitelist : List String
  deriving DecidableEq, Repr

/-- The decoded request body: a JSON object, or another JSON value. -/
inductive Decoded (V : Type) where
  | object (doc : GoMap V)
  | other

/-- What `add` reads from its request and its collaborators. -/
structure AddRequest (V : Type) where
  /-- The result of `middleware.Extract(r, true)`. -/
  extract : Except String (BaseConfig × Caller V)
  /-- The collection name taken from the path. -/
  col : String
  /-- The result of `json.NewDecoder(r.Body).Decode(&v)`. -/
  body : Except String (Decoded V)
  /-- The value returned by `primitive.NewObjectID()`. -/
  newObjectID : V
  /-- The result of `InsertOne`. -/
  insertOne : Except String Unit

/-- The HTTP response: `http.Error(w, text, status)` or `respond(w, status, doc)`. -/
inductive Response (V : Type) where
  | error (status : Nat) (text : String)
  | json (status : Nat) (doc : GoMap V)

/-- What `add` did: its response, the document given to `InsertOne` (if the
call was reached), and the published message (channel, type, document). -/
structure AddResult (V : Type) where
  response : Response V
  inserted : Option (GoMap V)
  published : Option (String × String × GoMap V)

/-- The function `Database.add`. A Go map read `doc[k]` of an absent key gives
the zero value, here `default`. -/
def Database.add {V : Type} [Inhabited V] (mt : MsgTypes) (req : AddRequest V) : AddResult V :=
  match req.extract with
  | .error e => ⟨.error 400 e, none, none⟩
  | .ok (_, auth) =>
    match req.body with
    | .error e => ⟨.error 500 e, none, none⟩
    | .ok .other => ⟨.error 400 "invalid body", none, none⟩
    | .ok (.object doc) =>
      let doc := GoMap.del doc "id"
      let doc := GoMap.del doc FieldID
      let doc := GoMap.del doc FieldAccountID
      let doc := GoMap.del doc FieldOwnerID
      let doc := GoMap.set doc FieldID req.newObjectID
      let doc := GoMap.set doc FieldAccountID auth.AccountID
      let doc := GoMap.set doc FieldOwnerID auth.UserID
      match req.insertOne with
      | .error e => ⟨.error 500 e, some doc, none⟩
      | .ok _ =>
        let out := GoMap.set doc "id" ((GoMap.get doc FieldID).getD default)
        let out := GoMap.del out FieldID
        ⟨.json 201 out, some doc, some ("db-" ++ req.col, mt.MsgTypeDBCreated, out)⟩

/-- A subscriber like `primarySub` whose cache refuses the write of `fn_f1`. -/
def failingFnSub : Subscriber :=
  ⟨⟨fun k => k == "fn_f1"⟩, fun _ => .ok tenantT, true⟩

/-- The execution context of tenant `fn_a`, whose store holds one function
with id `a:b`. -/
def tenantFnA : ExecutionEnvironment :=
  ⟨"fn_a", fun _ _ => .ok [⟨"a:b", "clash", "b", "code"⟩]⟩

/-- A primary instance whose tokens resolve to tenant `fn_a`. -/
def clashSub : Subscriber := ⟨⟨fun _ => false⟩, fun _ => .ok tenantFnA, true⟩

/-- A subscriber like `primarySub` whose cache refuses the write of the index
entry `T:orders`. -/
def failingIndexSub : Subscriber :=
  ⟨⟨fun k => k == "T:orders"⟩, fun _ => .ok tenantT, true⟩

/-- A primary instance whose tokens resolve to tenant `T` with a store that
fails. -/
def brokenStoreSub : Subscriber :=
  ⟨⟨fun _ => false⟩, fun _ => .ok ⟨"T", fun _ _ => .error "store down"⟩, true⟩

/-- A posted task document that also names two reserved keys. -/
def postedTask : GoMap String :=
  [("title", "item created"), ("done", "false"), ("id", "mine"), ("ownerId", "someone")]

/-- A request to `add` by user `u1` of account `a1` that posts `postedTask`
to the collection `tasks`. -/
def addTask : AddRequest String :=
  ⟨.ok (⟨"b1", "base1", []⟩, ⟨"a1", "u1", 0⟩), "tasks", .ok (.object postedTask), "oid1", .ok ()⟩

/-! ## Launches in program order, and runs of the subscriber -/

/-- The definitions at launch read off the effects in order, `cur` being
`exe.Data` so far: an assignment `exe.Data = fn` replaces `cur`, a `go`
statement launches a goroutine with `cur`. -/
def launchedFrom : Option ExecData → List Effect → List (Option ExecData)
  | _, [] => []
  | cur, e :: rest =>
    match e with
    | .setData fn => launchedFrom (some fn) rest
    | .goExecute _ => cur :: launchedFrom cur rest
    | _ => launchedFrom cur rest

/-- An effect that neither assigns `exe.Data` nor launches an execution. -/
def Effect.isNeutral : Effect → Bool
  | .setData _ => false
  | .goExecute _ => false
  | _ => true

/-- What happens to a subscriber: `Start` receives a signal, or the goroutine
that `process` launched for a counter deletes it after its 60 seconds. -/
inductive Step where
  | signal (s : Signal)
  | expire (key : String)
  deriving DecidableEq, Repr

/-- The state after a sequence of steps, each run to completion before the
next. -/
def Subscriber.run (sub : Subscriber) (mt : MsgTypes) : List Step → World → World
  | [], w => w
  | .signal s :: rest, w => run sub mt rest (sub.receive mt s w).1
  | .expire key :: rest, w => run sub mt rest (expire key w)

/-- A stored counter value that is an `int64` between 1 and 5. -/
def AnyVal.inWindow : AnyVal → Bool
  | .int64 n => decide (1 ≤ n) && decide (n ≤ 5)
  | .foreign _ => false

/-- A cache of tenant `T` whose index for `orders` lists `f1`, `f2` and a third
id while only `fn_f1` is present. -/
def halfCachedWorld : World :=
  ⟨[], [("T:orders", .ids ["f1", "f2", "f3"]), ("fn_f1", .fn f1)]⟩

/-- A primary instance on which no token resolves. -/
def badTokenSub : Subscriber := ⟨⟨fun _ => false⟩, fun _ => .error "bad token", true⟩

/-! ## Facts about Go maps -/

theorem GoMap.get_del_same {V : Type} (m : GoMap V) (k : String) :
    GoMap.get (GoMap.del m k) k = none := by
  induction m with
  | nil => rfl
  | cons p rest ih =>
    by_cases h : p.1 = k
    · simpa [GoMap.del, List.filter_cons, h] using ih
    · simpa [GoMap.del, List.filter_cons, h, GoMap.get] using ih

theorem GoMap.get_del_other {V : Type} (m : GoMap V) (k k' : String) (hne : k' ≠ k) :
    GoMap.get (GoMap.del m k) k' = GoMap.get m k' := by
  induction m with
  | nil => rfl
  | cons p rest ih =>
    obtain ⟨a, b⟩ := p
    have ih' : GoMap.get (List.filter (fun p => !(p.1 == k)) rest) k' = GoMap.get rest k' := ih
    by_cases h : a = k
    · subst h
      have h' : ¬ a = k' := fun e => hne e.symm
      simp [GoMap.del, List.filter_cons, GoMap.get, h', ih']
    · by_cases h2 : a = k'
      · subst h2
        simp [GoMap.del, List.filter_cons, h, GoMap.get]
      · simp [GoMap.del, List.filter_cons, h, GoMap.get, h2, ih']

theorem GoMap.get_set_same {V : Type} (m : GoMap V) (k : String) (v : V) :
    GoMap.get (GoMap.set m k v) k = some v := by
  simp [GoMap.set, GoMap.get]

theorem GoMap.get_set_other {V : Type} (m : GoMap V) (k k' : String) (v : V) (hne : k' ≠ k) :
    GoMap.get (GoMap.set m k v) k' = GoMap.get m k' := by
  have h : ¬ k = k' := fun e => hne e.symm
  simp [GoMap.set, GoMap.get, h, GoMap.get_del_other m k k' hne]

/-! ## Frame facts about `handleRealtimeEvents` -/

theorem handleRealtimeEvents_relax (sub : Subscriber) (msg : Command) (w : World) :
    (sub.handleRealtimeEvents msg w).1.relax = w.relax := by
  unfold Subscriber.handleRealtimeEvents
  cases sub.GetExecEnv msg with
  | error e => rfl
  | ok exe =>
    dsimp only
    cases Volatilizer.getIds w.cache (exe.BaseName ++ ":" ++ msg.Channel) with
    | ok ids => rfl
    | error e =>
      dsimp only
      cases exe.ListFunctionsByTrigger exe.BaseName msg.Channel with
      | error e => rfl
      | ok funcs =>
        dsimp only
        cases (cacheFunctions sub.PubSub funcs w.cache []).2.2 with
        | none => rfl
        | some ids =>
          dsimp only
          cases sub.PubSub.SetTyped (cacheFunctions sub.PubSub funcs w.cache []).1
            (exe.BaseName ++ ":" ++ msg.Channel) (CacheVal.ids ids) <;> rfl

theorem handleRealtimeEvents_head (sub : Subscriber) (msg : Command) (w : World) :
    (sub.handleRealtimeEvents msg w).2.head? = some (.getExecEnv msg) := by
  unfold Subscriber.handleRealtimeEvents
  cases sub.GetExecEnv msg with
  | error e => rfl
  | ok exe =>
    dsimp only
    cases Volatilizer.getIds w.cache (exe.BaseName ++ ":" ++ msg.Channel) with
    | ok ids => rfl
    | error e =>
      dsimp only
      cases exe.ListFunctionsByTrigger exe.BaseName msg.Channel with
      | error e => rfl
      | ok funcs =>
        dsimp only
        cases (cacheFunctions sub.PubSub funcs w.cache []).2.2 with
        | none => rfl
        | some ids =>
          dsimp only
          cases sub.PubSub.SetTyped (cacheFunctions sub.PubSub funcs w.cache []).1
            (exe.BaseName ++ ":" ++ msg.Channel) (CacheVal.ids ids) <;> rfl

theorem handleRealtimeEvents_invoked (sub : Subscriber) (msg : Command) (w : World) :
    Effect.getExecEnv msg ∈ (sub.handleRealtimeEvents msg w).2 :=
  List.mem_of_mem_head? (handleRealtimeEvents_head sub msg w)

/-! ## The cases of `process` -/

theorem process_system (sub : Subscriber) (mt : MsgTypes) (msg : Command) (w : World)
    (hs : mt.isSystem msg.Type_ = true) :
    sub.process mt msg w = sub.handleRealtimeEvents msg w := by
  simp [Subscriber.process, hs]

theorem process_fresh (sub : Subscriber) (mt : MsgTypes) (msg : Command) (w : World)
    (hs : mt.isSystem msg.Type_ = false) (hget : GoMap.get w.relax msg.Auth.UserID = none) :
    sub.process mt msg w =
      ((sub.handleRealtimeEvents msg
          { w with relax := GoMap.set w.relax msg.Auth.UserID (.int64 1) }).1,
        .goExpire msg.Auth.UserID :: (sub.handleRealtimeEvents msg
          { w with relax := GoMap.set w.relax msg.Auth.UserID (.int64 1) }).2) := by
  simp [Subscriber.process, hs, hget]

theorem process_below (sub : Subscriber) (mt : MsgTypes) (msg : Command) (w : World) (n : Int)
    (hs : mt.isSystem msg.Type_ = false)
    (hget : GoMap.get w.relax msg.Auth.UserID = some (.int64 n)) (hn : n < 5) :
    sub.process mt msg w =
      sub.handleRealtimeEvents msg
        { w with relax := GoMap.set w.relax msg.Auth.UserID (.int64 (n + 1)) } := by
  have h : ¬ 5 ≤ n := by omega
  simp [Subscriber.process, hs, hget, h]

theorem process_limit (sub : Subscriber) (mt : MsgTypes) (msg : Command) (w : World) (n : Int)
    (hs : mt.isSystem msg.Type_ = false)
    (hget : GoMap.get w.relax msg.Auth.UserID = some (.int64 n)) (hn : 5 ≤ n) :
    sub.process mt msg w =
      (w, [.log .warn "user exeeded amount of allowed message in 60 second"]) := by
  simp [Subscriber.process, hs, hget, hn]

theorem invoked_handleRealtimeEvents (sub : Subscriber) (msg : Command) (w : World) :
    invoked (sub.handleRealtimeEvents msg w).2 = true := by
  have h := handleRealtimeEvents_invoked sub msg w
  unfold invoked
  rw [List.any_eq_true]
  exact ⟨_, h, rfl⟩

/-- One user-triggered event of `u`, when `u`-s counter is `c ≤ 5`: below 5 the
event is handed to `handleRealtimeEvents` after the counter became `c + 1`; at
5 the state stays as it is and the only effect is the warning. -/
theorem process_user_step (sub : Subscriber) (mt : MsgTypes) (m : Command) (w : World)
    (u : String) (c : Nat) (hu : m.Auth.UserID = u) (hs : mt.isSystem m.Type_ = false)
    (hc : hasCount w u c) :
    (c < 5 →
      Effect.getExecEnv m ∈ (sub.process mt m w).2 ∧ invoked (sub.process mt m w).2 = true ∧
        hasCount (sub.process mt m w).1 u (c + 1)) ∧
    (5 ≤ c →
      sub.process mt m w =
        (w, [.log .warn "user exeeded amount of allowed message in 60 second"])) := by
  subst hu
  unfold hasCount at hc
  constructor
  · intro hlt
    by_cases h0 : c = 0
    · subst h0
      simp only [if_true] at hc
      rw [process_fresh sub mt m w hs hc]
      refine ⟨List.mem_cons_of_mem _ (handleRealtimeEvents_invoked _ _ _), ?_, ?_⟩
      · have := invoked_handleRealtimeEvents sub m
          { w with relax := GoMap.set w.relax m.Auth.UserID (.int64 1) }
        simpa [invoked] using this
      · unfold hasCount
        simp [handleRealtimeEvents_relax, GoMap.get_set_same]
    · simp only [h0, if_false] at hc
      rw [process_below sub mt m w c hs hc (by omega)]
      refine ⟨handleRealtimeEvents_invoked _ _ _, invoked_handleRealtimeEvents _ _ _, ?_⟩
      unfold hasCount
      simp [handleRealtimeEvents_relax, GoMap.get_set_same]
  · intro hge
    have h0 : c ≠ 0 := by omega
    simp only [h0, if_false] at hc
    exact process_limit sub mt m w c hs hc (by omega)

/-- After a run of user-triggered events of `u` the counter is the number of
events, capped at 5. -/
theorem processAll_count (sub : Subscriber) (mt : MsgTypes) (u : String) :
    ∀ (msgs : List Command) (w : World) (c : Nat),
      (∀ m ∈ msgs, m.Auth.UserID = u ∧ mt.isSystem m.Type_ = false) →
      c ≤ 5 → hasCount w u c →
      hasCount (sub.processAll mt msgs w).1 u (min (c + msgs.length) 5)
  | [], w, c, _, hc5, hc => by
    simpa [Subscriber.processAll, Nat.min_eq_left hc5] using hc
  | m :: rest, w, c, hall, hc5, hc => by
    have hm := hall m (List.mem_cons_self _ _)
    have hrest : ∀ x ∈ rest, x.Auth.UserID = u ∧ mt.isSystem x.Type_ = false :=
      fun x hx => hall x (List.mem_cons_of_mem _ hx)
    have hstep := process_user_step sub mt m w u c hm.1 hm.2 hc
    simp only [Subscriber.processAll, List.length_cons]
    by_cases hlt : c < 5
    · have h1 := (hstep.1 hlt).2.2
      have ih := processAll_count sub mt u rest (sub.process mt m w).1 (c + 1) hrest (by omega) h1
      have e : min (c + (rest.length + 1)) 5 = min (c + 1 + rest.length) 5 := by omega
      rw [e]
      exact ih
    · have h5 : c = 5 := by omega
      have h1 := hstep.2 (by omega)
      rw [h1]
      have ih := processAll_count sub mt u rest w c hrest hc5 hc
      have e : min (c + (rest.length + 1)) 5 = min (c + rest.length) 5 := by omega
      rw [e]
      exact ih

/-- The effects recorded for the `i`-th event of a run are those of `process`
on the state left by the events before it. -/
theorem processAll_effects (sub : Subscriber) (mt : MsgTypes) :
    ∀ (msgs : List Command) (w : World) (i : Nat) (hi : i < msgs.length),
      (sub.processAll mt msgs w).2.get? i =
        some (sub.process mt (msgs.get ⟨i, hi⟩) (sub.processAll mt (msgs.take i) w).1).2
  | [], _, _, hi => by simp at hi
  | m :: rest, w, 0, _ => by simp [Subscriber.processAll]
  | m :: rest, w, i + 1, hi => by
    have hi' : i < rest.length := by simpa using hi
    have ih := processAll_effects sub mt rest (sub.process mt m w).1 i hi'
    simpa [Subscriber.processAll] using ih

/-- The acceptance pattern of a run of user-triggered events of `u` that starts
with the counter at `c`: the event at position `i` is accepted iff `c + i < 5`. -/
theorem processAll_invoked (sub : Subscriber) (mt : MsgTypes) (u : String) :
    ∀ (msgs : List Command) (w : World) (c : Nat),
      (∀ m ∈ msgs, m.Auth.UserID = u ∧ mt.isSystem m.Type_ = false) →
      c ≤ 5 → hasCount w u c →
      (sub.processAll mt msgs w).2.map invoked =
        (List.range msgs.length).map (fun i => decide (c + i < 5))
  | [], _, _, _, _, _ => by simp [Subscriber.processAll]
  | m :: rest, w, c, hall, hc5, hc => by
    have hm := hall m (List.mem_cons_self _ _)
    have hrest : ∀ x ∈ rest, x.Auth.UserID = u ∧ mt.isSystem x.Type_ = false :=
      fun x hx => hall x (List.mem_cons_of_mem _ hx)
    have hstep := process_user_step sub mt m w u c hm.1 hm.2 hc
    simp only [Subscriber.processAll, List.length_cons, List.map_cons,
      List.range_succ_eq_map, List.map_map]
    by_cases hlt : c < 5
    · have h1 := hstep.1 hlt
      rw [processAll_invoked sub mt u rest (sub.process mt m w).1 (c + 1) hrest (by omega) h1.2.2,
        h1.2.1]
      simp [hlt, Function.comp_def, Nat.add_assoc, Nat.add_comm 1]
    · have h1 := hstep.2 (by omega)
      rw [h1, processAll_invoked sub mt u rest w c hrest hc5 hc]
      have hfalse : ∀ i, ¬ c + i < 5 := fun i => by omega
      simp [hlt, hfalse, invoked]

/-- The result of `handleRealtimeEvents` is determined by the cache alone. -/
theorem handleRealtimeEvents_cache_only (sub : Subscriber) (msg : Command) (w : World) :
    sub.handleRealtimeEvents msg w =
      ({ relax := w.relax, cache := (sub.handleRealtimeEvents msg ⟨[], w.cache⟩).1.cache },
        (sub.handleRealtimeEvents msg ⟨[], w.cache⟩).2) := by
  unfold Subscriber.handleRealtimeEvents
  cases sub.GetExecEnv msg with
  | error e => rfl
  | ok exe =>
    dsimp only
    cases Volatilizer.getIds w.cache (exe.BaseName ++ ":" ++ msg.Channel) with
    | ok ids => rfl
    | error e =>
      dsimp only
      cases exe.ListFunctionsByTrigger exe.BaseName msg.Channel with
      | error e => rfl
      | ok funcs =>
        dsimp only
        cases (cacheFunctions sub.PubSub funcs w.cache []).2.2 with
        | none => rfl
        | some ids =>
          dsimp only
          cases sub.PubSub.SetTyped (cacheFunctions sub.PubSub funcs w.cache []).1
            (exe.BaseName ++ ":" ++ msg.Channel) (CacheVal.ids ids) <;> rfl

theorem dispatch_no_goExpire (msg : Command) (c : GoMap CacheVal) (ids : List String) :
    count Effect.isGoExpire (dispatch msg c ids) = 0 := by
  induction ids with
  | nil => rfl
  | cons id rest ih =>
    unfold dispatch
    cases Volatilizer.getFn c ("fn_" ++ id) with
    | error e => rfl
    | ok fn => simpa [count, Effect.isGoExpire] using ih

theorem cacheFunctions_no_goExpire (ps : Volatilizer) (funcs : List ExecData) :
    ∀ (c : GoMap CacheVal) (ids : List String),
      count Effect.isGoExpire (cacheFunctions ps funcs c ids).2.1 = 0 := by
  induction funcs with
  | nil => intro c ids; rfl
  | cons fn rest ih =>
    intro c ids
    unfold cacheFunctions
    cases ps.SetTyped c ("fn_" ++ fn.ID) (.fn fn) with
    | error e => rfl
    | ok c' => simpa [count, Effect.isGoExpire] using ih c' (ids ++ [fn.ID])

theorem handleRealtimeEvents_no_goExpire (sub : Subscriber) (msg : Command) (w : World) :
    count Effect.isGoExpire (sub.handleRealtimeEvents msg w).2 = 0 := by
  unfold Subscriber.handleRealtimeEvents
  cases sub.GetExecEnv msg with
  | error e => rfl
  | ok exe =>
    dsimp only
    cases Volatilizer.getIds w.cache (exe.BaseName ++ ":" ++ msg.Channel) with
    | ok ids =>
      simpa [count, Effect.isGoExpire] using dispatch_no_goExpire msg w.cache ids
    | error e =>
      dsimp only
      cases exe.ListFunctionsByTrigger exe.BaseName msg.Channel with
      | error e => rfl
      | ok funcs =>
        dsimp only
        have hcf := cacheFunctions_no_goExpire sub.PubSub funcs w.cache []
        cases (cacheFunctions sub.PubSub funcs w.cache []).2.2 with
        | none => simpa [count, Effect.isGoExpire] using hcf
        | some ids =>
          dsimp only
          cases sub.PubSub.SetTyped (cacheFunctions sub.PubSub funcs w.cache []).1
            (exe.BaseName ++ ":" ++ msg.Channel) (CacheVal.ids ids) with
          | error e =>
            have hd := dispatch_no_goExpire msg (cacheFunctions sub.PubSub funcs w.cache []).1 ids
            simp only [count] at hcf hd ⊢
            simp [Effect.isGoExpire, List.countP_cons, List.countP_append, hcf, hd]
          | ok c2 =>
            have hd := dispatch_no_goExpire msg c2 ids
            simp only [count] at hcf hd ⊢
            simp [Effect.isGoExpire, List.countP_cons, List.countP_append, hcf, hd]

/-! ## The rate limiter -/

/-- C1: when `u` has no counter and user-triggered events of `u` are run through
`process` one after another with no expiry in between, the events at positions
1 to 5 are handed to `handleRealtimeEvents` (the counter becoming their
position), and every later one is dropped: `GetExecEnv` is not called and the
state, the counter map included, is left as it was. -/
theorem process_accepts_five_then_drops (sub : Subscriber) (mt : MsgTypes) (u : String)
    (w : World) (msgs : List Command)
    (hfresh : GoMap.get w.relax u = none)
    (hmsgs : ∀ m ∈ msgs, m.Auth.UserID = u ∧ mt.isSystem m.Type_ = false)
    (i : Nat) (hi : i < msgs.length) :
    (sub.processAll mt msgs w).2.get? i =
        some (sub.process mt (msgs.get ⟨i, hi⟩) (sub.processAll mt (msgs.take i) w).1).2 ∧
    (i < 5 →
      Effect.getExecEnv (msgs.get ⟨i, hi⟩) ∈
          (sub.process mt (msgs.get ⟨i, hi⟩) (sub.processAll mt (msgs.take i) w).1).2 ∧
        GoMap.get (sub.process mt (msgs.get ⟨i, hi⟩)
          (sub.processAll mt (msgs.take i) w).1).1.relax u = some (.int64 (i + 1))) ∧
    (5 ≤ i →
      (∀ m, Effect.getExecEnv m ∉
          (sub.process mt (msgs.get ⟨i, hi⟩) (sub.processAll mt (msgs.take i) w).1).2) ∧
        (sub.process mt (msgs.get ⟨i, hi⟩) (sub.processAll mt (msgs.take i) w).1).1 =
          (sub.processAll mt (msgs.take i) w).1) := by
  have htake : ∀ m ∈ msgs.take i, m.Auth.UserID = u ∧ mt.isSystem m.Type_ = false :=
    fun m hm => hmsgs m (List.mem_of_mem_take hm)
  have h0 : hasCount w u 0 := by simpa [hasCount] using hfresh
  have hcount := processAll_count sub mt u (msgs.take i) w 0 htake (by omega) h0
  have hlen : (msgs.take i).length = i := by
    rw [List.length_take]; omega
  rw [hlen, Nat.zero_add] at hcount
  have hm := hmsgs (msgs.get ⟨i, hi⟩) (List.get_mem msgs i hi)
  have hstep := process_user_step sub mt (msgs.get ⟨i, hi⟩)
    (sub.processAll mt (msgs.take i) w).1 u (min i 5) hm.1 hm.2 hcount
  refine ⟨processAll_effects sub mt msgs w i hi, ?_, ?_⟩
  · intro hlt
    have hmin : min i 5 = i := by omega
    rw [hmin] at hstep
    have h := hstep.1 hlt
    refine ⟨h.1, ?_⟩
    have h2 := h.2.2
    unfold hasCount at h2
    simpa using h2
  · intro hge
    have hmin : min i 5 = 5 := by omega
    rw [hmin] at hstep
    have h := hstep.2 (le_refl 5)
    rw [h]
    refine ⟨?_, rfl⟩
    intro m hmem
    simp at hmem

theorem userEvents_replicate (n : Nat) :
    ∀ m ∈ List.replicate n userEvent,
      m.Auth.UserID = "u1" ∧ exampleTypes.isSystem m.Type_ = false := by
  intro m hm
  rw [List.eq_of_mem_replicate hm]
  decide

/-- Witness of C1: six events of `u1` on an empty state; the first is accepted
with the counter at 1 and the sixth leaves the state as the fifth left it. -/
theorem process_accepts_five_then_drops_witness :
    GoMap.get emptyWorld.relax "u1" = none ∧
    GoMap.get (primarySub.process exampleTypes userEvent emptyWorld).1.relax "u1" =
      some (.int64 1) ∧
    (primarySub.process exampleTypes userEvent
        (primarySub.processAll exampleTypes (List.replicate 5 userEvent) emptyWorld).1).1 =
      (primarySub.processAll exampleTypes (List.replicate 5 userEvent) emptyWorld).1 :=
  ⟨rfl,
    ((process_accepts_five_then_drops primarySub exampleTypes "u1" emptyWorld
      (List.replicate 6 userEvent) rfl (userEvents_replicate 6) 0 (by decide)).2.1
        (by decide)).2,
    ((process_accepts_five_then_drops primarySub exampleTypes "u1" emptyWorld
      (List.replicate 6 userEvent) rfl (userEvents_replicate 6) 5 (by decide)).2.2
        (le_refl 5)).2⟩

/-- C2: whatever events were processed before, once the expiry step has deleted
`u`-s counter the next user-triggered event of `u` is handed to
`handleRealtimeEvents` and leaves the counter at 1. In particular, when `u` had
no counter, six events of `u` give accept five times and then drop, and the
seventh, after the expiry, is accepted. -/
theorem expiry_opens_fresh_window (sub : Subscriber) (mt : MsgTypes) (u : String)
    (w : World) (msgs : List Command) (next : Command)
    (hnext : next.Auth.UserID = u ∧ mt.isSystem next.Type_ = false) :
    (Effect.getExecEnv next ∈
        (sub.process mt next (expire u (sub.processAll mt msgs w).1)).2 ∧
      invoked (sub.process mt next (expire u (sub.processAll mt msgs w).1)).2 = true ∧
      GoMap.get (sub.process mt next (expire u (sub.processAll mt msgs w).1)).1.relax u =
        some (.int64 1)) ∧
    (GoMap.get w.relax u = none →
      (∀ m ∈ msgs, m.Auth.UserID = u ∧ mt.isSystem m.Type_ = false) →
      msgs.length = 6 →
      (sub.processAll mt msgs w).2.map invoked = [true, true, true, true, true, false]) := by
  constructor
  · have h0 : hasCount (expire u (sub.processAll mt msgs w).1) u 0 := by
      simp [hasCount, expire, GoMap.get_del_same]
    have h := (process_user_step sub mt next _ u 0 hnext.1 hnext.2 h0).1 (by omega)
    refine ⟨h.1, h.2.1, ?_⟩
    have h2 := h.2.2
    unfold hasCount at h2
    simpa using h2
  · intro hfresh hall hlen
    have h0 : hasCount w u 0 := by simpa [hasCount] using hfresh
    rw [processAll_invoked sub mt u msgs w 0 hall (by omega) h0, hlen]
    decide

/-- Witness of C2: a seventh event of `u1` after six events and the expiry. -/
theorem expiry_opens_fresh_window_witness :
    (userEvent.Auth.UserID = "u1" ∧ exampleTypes.isSystem userEvent.Type_ = false) ∧
    GoMap.get (primarySub.process exampleTypes userEvent
      (expire "u1" (primarySub.processAll exampleTypes
        (List.replicate 6 userEvent) emptyWorld).1)).1.relax "u1" = some (.int64 1) :=
  ⟨by decide,
    (expiry_opens_fresh_window primarySub exampleTypes "u1" emptyWorld
      (List.replicate 6 userEvent) userEvent (by decide)).1.2.2⟩

/-! ## System events and the primary-instance gate -/

/-- C3: an event of type channel-out, db-created, db-updated or db-deleted is
handed to `handleRealtimeEvents` as it is, whatever the counter map holds: the
result is that of `handleRealtimeEvents`, the counter map is left as it was, no
expiry is scheduled, and the effects and the resulting cache are the same from
any other state with that cache. -/
theorem process_system_bypasses_limiter (sub : Subscriber) (mt : MsgTypes) (msg : Command)
    (w : World) (hs : mt.isSystem msg.Type_ = true) :
    sub.process mt msg w = sub.handleRealtimeEvents msg w ∧
    Effect.getExecEnv msg ∈ (sub.process mt msg w).2 ∧
    (sub.process mt msg w).1.relax = w.relax ∧
    count Effect.isGoExpire (sub.process mt msg w).2 = 0 ∧
    (∀ w2 : World, w2.cache = w.cache →
      (sub.process mt msg w2).2 = (sub.process mt msg w).2 ∧
      (sub.process mt msg w2).1.cache = (sub.process mt msg w).1.cache) := by
  rw [process_system sub mt msg w hs]
  refine ⟨rfl, handleRealtimeEvents_invoked _ _ _, handleRealtimeEvents_relax _ _ _,
    handleRealtimeEvents_no_goExpire _ _ _, ?_⟩
  intro w2 hc
  rw [process_system sub mt msg w2 hs, handleRealtimeEvents_cache_only sub msg w2,
    handleRealtimeEvents_cache_only sub msg w, hc]
  exact ⟨rfl, rfl⟩

/-- Witness of C3: a db-created event of `u1` while the counter of `u1` is 5. -/
theorem process_system_bypasses_limiter_witness :
    exampleTypes.isSystem systemEvent.Type_ = true ∧
    (primarySub.process exampleTypes systemEvent ⟨[("u1", .int64 5)], []⟩).1.relax =
      [("u1", .int64 5)] :=
  ⟨by decide,
    (process_system_bypasses_limiter primarySub exampleTypes systemEvent
      ⟨[("u1", .int64 5)], []⟩ (by decide)).2.2.1⟩

/-- C5: on an instance that is not the primary, the receive step for an event
makes no call at all (no cache lookup, no store query, no execution) and
leaves the counter map and the cache as they were. -/
theorem receive_non_primary_is_noop (sub : Subscriber) (mt : MsgTypes) (m : Command)
    (w : World) (hp : sub.IsPrimaryInstance = false) :
    sub.receive mt (.msg m) w = (w, []) ∧
    count Effect.isCacheGet (sub.receive mt (.msg m) w).2 = 0 ∧
    count Effect.isStoreLookup (sub.receive mt (.msg m) w).2 = 0 ∧
    count Effect.isGoExecute (sub.receive mt (.msg m) w).2 = 0 ∧
    (sub.receive mt (.msg m) w).1.relax = w.relax ∧
    (sub.receive mt (.msg m) w).1.cache = w.cache := by
  have h : sub.receive mt (.msg m) w = (w, []) := by
    simp [Subscriber.receive, hp]
  rw [h]
  exact ⟨rfl, rfl, rfl, rfl, rfl, rfl⟩

/-- Witness of C5: a user event received by the replica. -/
theorem receive_non_primary_is_noop_witness :
    replicaSub.IsPrimaryInstance = false ∧
    replicaSub.receive exampleTypes (.msg userEvent) emptyWorld = (emptyWorld, []) :=
  ⟨rfl, (receive_non_primary_is_noop replicaSub exampleTypes userEvent emptyWorld rfl).1⟩

/-! ## The loops of `handleRealtimeEvents` -/

theorem fnKey_injective (a b : String) (h : "fn_" ++ a = "fn_" ++ b) : a = b := by
  have h2 := congrArg String.data h
  simp only [String.data_append] at h2
  exact String.ext (List.append_cancel_left h2)

theorem dispatch_count_zero (p : Effect → Bool) (msg : Command) (c : GoMap CacheVal)
    (h1 : ∀ k, p (.cacheGet k) = false) (h2 : ∀ f, p (.setData f) = false)
    (h3 : ∀ m, p (.goExecute m) = false) (h4 : ∀ l t, p (.log l t) = false)
    (ids : List String) : count p (dispatch msg c ids) = 0 := by
  induction ids with
  | nil => rfl
  | cons id rest ih =>
    unfold dispatch
    cases Volatilizer.getFn c ("fn_" ++ id) with
    | error e => simp [count, h1, h4]
    | ok fn =>
      simp only [count] at ih ⊢
      simp [List.countP_cons, h1, h2, h3, ih]

theorem cacheFunctions_count_zero (p : Effect → Bool) (ps : Volatilizer)
    (h1 : ∀ k, p (.cacheSet k) = false) (h4 : ∀ l t, p (.log l t) = false)
    (funcs : List ExecData) :
    ∀ (c : GoMap CacheVal) (ids : List String),
      count p (cacheFunctions ps funcs c ids).2.1 = 0 := by
  induction funcs with
  | nil => intro c ids; rfl
  | cons fn rest ih =>
    intro c ids
    unfold cacheFunctions
    cases ps.SetTyped c ("fn_" ++ fn.ID) (.fn fn) with
    | error e => simp [count, h1, h4]
    | ok c2 =>
      have h := ih c2 (ids ++ [fn.ID])
      simp only [count] at h ⊢
      simp [List.countP_cons, h1, h]

/-- When every read succeeds the dispatch loop launches one goroutine per id. -/
theorem dispatch_all (msg : Command) (c : GoMap CacheVal) (ids : List String)
    (h : ∀ id ∈ ids, ∃ g, GoMap.get c ("fn_" ++ id) = some (.fn g)) :
    count Effect.isGoExecute (dispatch msg c ids) = ids.length := by
  induction ids with
  | nil => rfl
  | cons id rest ih =>
    obtain ⟨g, hg⟩ := h id (List.mem_cons_self _ _)
    have ih2 := ih (fun x hx => h x (List.mem_cons_of_mem _ hx))
    unfold dispatch
    simp only [Volatilizer.getFn, hg, count] at ih2 ⊢
    simp [List.countP_cons, Effect.isGoExecute, ih2]

/-- The write loop when no write fails: the ids are appended in order. -/
theorem cacheFunctions_ids (ps : Volatilizer) (funcs : List ExecData)
    (hw : ∀ f ∈ funcs, ps.writeFails ("fn_" ++ f.ID) = false) :
    ∀ (c : GoMap CacheVal) (ids : List String),
      (cacheFunctions ps funcs c ids).2.2 = some (ids ++ funcs.map ExecData.ID) := by
  induction funcs with
  | nil => intro c ids; simp [cacheFunctions]
  | cons fn rest ih =>
    intro c ids
    have h1 := hw fn (List.mem_cons_self _ _)
    have ih2 := ih (fun f hf => hw f (List.mem_cons_of_mem _ hf))
      (GoMap.set c ("fn_" ++ fn.ID) (.fn fn)) (ids ++ [fn.ID])
    simp [cacheFunctions, Volatilizer.SetTyped, h1, ih2]

/-- The write loop returns early as soon as one write fails. -/
theorem cacheFunctions_abort (ps : Volatilizer) (funcs : List ExecData)
    (hw : ∃ f ∈ funcs, ps.writeFails ("fn_" ++ f.ID) = true) :
    ∀ (c : GoMap CacheVal) (ids : List String),
      (cacheFunctions ps funcs c ids).2.2 = none := by
  induction funcs with
  | nil => obtain ⟨f, hf, _⟩ := hw; simp at hf
  | cons fn rest ih =>
    intro c ids
    by_cases h1 : ps.writeFails ("fn_" ++ fn.ID) = true
    · simp [cacheFunctions, Volatilizer.SetTyped, h1]
    · have h1f : ps.writeFails ("fn_" ++ fn.ID) = false := by simpa using h1
      obtain ⟨f, hf, hfail⟩ := hw
      have hrest : ∃ f ∈ rest, ps.writeFails ("fn_" ++ f.ID) = true := by
        rcases List.mem_cons.mp hf with e | hmem
        · subst e; rw [h1f] at hfail; cases hfail
        · exact ⟨f, hmem, hfail⟩
      have ih2 := ih hrest (GoMap.set c ("fn_" ++ fn.ID) (.fn fn)) (ids ++ [fn.ID])
      simp [cacheFunctions, Volatilizer.SetTyped, h1f, ih2]

/-- The write loop leaves the keys it does not write as they were. -/
theorem cacheFunctions_get_other (ps : Volatilizer) (funcs : List ExecData) (k : String)
    (hk : ∀ f ∈ funcs, "fn_" ++ f.ID ≠ k) :
    ∀ (c : GoMap CacheVal) (ids : List String),
      GoMap.get (cacheFunctions ps funcs c ids).1 k = GoMap.get c k := by
  induction funcs with
  | nil => intro c ids; rfl
  | cons fn rest ih =>
    intro c ids
    have hne : k ≠ "fn_" ++ fn.ID := fun e => hk fn (List.mem_cons_self _ _) e.symm
    have ih2 := ih (fun f hf => hk f (List.mem_cons_of_mem _ hf))
      (GoMap.set c ("fn_" ++ fn.ID) (.fn fn)) (ids ++ [fn.ID])
    by_cases h1 : ps.writeFails ("fn_" ++ fn.ID) = true
    · simp [cacheFunctions, Volatilizer.SetTyped, h1]
    · simp [cacheFunctions, Volatilizer.SetTyped, h1, ih2, GoMap.get_set_other _ _ _ _ hne]

/-- After the write loop without a failed write, the key of every function
holds a function with that id. -/
theorem cacheFunctions_get_fn (ps : Volatilizer) (funcs : List ExecData)
    (hw : ∀ f ∈ funcs, ps.writeFails ("fn_" ++ f.ID) = false) :
    ∀ (c : GoMap CacheVal) (ids : List String), ∀ f ∈ funcs,
      ∃ g ∈ funcs, g.ID = f.ID ∧
        GoMap.get (cacheFunctions ps funcs c ids).1 ("fn_" ++ f.ID) = some (.fn g) := by
  induction funcs with
  | nil => intro c ids f hf; simp at hf
  | cons fn rest ih =>
    intro c ids f hf
    have h1 := hw fn (List.mem_cons_self _ _)
    have hwr : ∀ f ∈ rest, ps.writeFails ("fn_" ++ f.ID) = false :=
      fun f hf => hw f (List.mem_cons_of_mem _ hf)
    have hstep : (cacheFunctions ps (fn :: rest) c ids).1 =
        (cacheFunctions ps rest (GoMap.set c ("fn_" ++ fn.ID) (.fn fn)) (ids ++ [fn.ID])).1 := by
      simp [cacheFunctions, Volatilizer.SetTyped, h1]
    rw [hstep]
    by_cases hex : ∃ g ∈ rest, g.ID = f.ID
    · obtain ⟨g, hg, hgid⟩ := hex
      obtain ⟨g2, hg2, hid2, hget⟩ := ih hwr
        (GoMap.set c ("fn_" ++ fn.ID) (.fn fn)) (ids ++ [fn.ID]) g hg
      refine ⟨g2, List.mem_cons_of_mem _ hg2, hid2.trans hgid, ?_⟩
      rw [← hgid]; exact hget
    · have hfeq : f = fn := by
        rcases List.mem_cons.mp hf with e | hmem
        · exact e
        · exact absurd ⟨f, hmem, rfl⟩ hex
      subst hfeq
      refine ⟨f, List.mem_cons_self _ _, rfl, ?_⟩
      rw [cacheFunctions_get_other ps rest ("fn_" ++ f.ID)
        (fun g hg e => hex ⟨g, hg, fnKey_injective _ _ e⟩)]
      exact GoMap.get_set_same _ _ _

/-- With distinct ids, the key of every function holds that very function. -/
theorem cacheFunctions_get_self (ps : Volatilizer) (funcs : List ExecData)
    (hw : ∀ f ∈ funcs, ps.writeFails ("fn_" ++ f.ID) = false)
    (hnodup : (funcs.map ExecData.ID).Nodup) (c : GoMap CacheVal) (ids : List String) :
    ∀ f ∈ funcs,
      GoMap.get (cacheFunctions ps funcs c ids).1 ("fn_" ++ f.ID) = some (.fn f) := by
  intro f hf
  obtain ⟨g, hg, hid, hget⟩ := cacheFunctions_get_fn ps funcs hw c ids f hf
  have hinj := List.inj_on_of_nodup_map hnodup
  have : g = f := hinj hg hf hid
  rw [hget, this]

/-! ## The paths of `handleRealtimeEvents` -/

theorem getIds_error (c : GoMap CacheVal) (key : String)
    (hmiss : ∀ l, GoMap.get c key ≠ some (.ids l)) :
    ∃ e, Volatilizer.getIds c key = .error e := by
  unfold Volatilizer.getIds
  cases h : GoMap.get c key with
  | none => exact ⟨_, rfl⟩
  | some v =>
    cases v with
    | ids l => exact absurd h (hmiss l)
    | fn d => exact ⟨_, rfl⟩

/-- The path of an index hit. -/
theorem handleRealtimeEvents_hit (sub : Subscriber) (msg : Command) (w : World)
    (exe : ExecutionEnvironment) (ids : List String)
    (henv : sub.GetExecEnv msg = .ok exe)
    (hhit : GoMap.get w.cache (exe.BaseName ++ ":" ++ msg.Channel) = some (.ids ids)) :
    sub.handleRealtimeEvents msg w =
      (w, .getExecEnv msg :: .cacheGet (exe.BaseName ++ ":" ++ msg.Channel) ::
        dispatch msg w.cache ids) := by
  simp [Subscriber.handleRealtimeEvents, henv, Volatilizer.getIds, hhit]

/-- The path of an index miss followed by a store failure. -/
theorem handleRealtimeEvents_store_error (sub : Subscriber) (msg : Command) (w : World)
    (exe : ExecutionEnvironment) (err : String)
    (henv : sub.GetExecEnv msg = .ok exe)
    (hmiss : ∀ l, GoMap.get w.cache (exe.BaseName ++ ":" ++ msg.Channel) ≠ some (.ids l))
    (hstore : exe.ListFunctionsByTrigger exe.BaseName msg.Channel = .error err) :
    sub.handleRealtimeEvents msg w =
      (w, [.getExecEnv msg, .cacheGet (exe.BaseName ++ ":" ++ msg.Channel),
           .listFunctionsByTrigger exe.BaseName msg.Channel,
           .log .error "error getting functions by trigger"]) := by
  obtain ⟨e, he⟩ := getIds_error w.cache _ hmiss
  simp [Subscriber.handleRealtimeEvents, henv, he, hstore]

/-- The path of an index miss, a store answer and no failed write. -/
theorem handleRealtimeEvents_loaded (sub : Subscriber) (msg : Command) (w : World)
    (exe : ExecutionEnvironment) (funcs : List ExecData)
    (henv : sub.GetExecEnv msg = .ok exe)
    (hmiss : ∀ l, GoMap.get w.cache (exe.BaseName ++ ":" ++ msg.Channel) ≠ some (.ids l))
    (hstore : exe.ListFunctionsByTrigger exe.BaseName msg.Channel = .ok funcs)
    (hwf : ∀ f ∈ funcs, sub.PubSub.writeFails ("fn_" ++ f.ID) = false)
    (hwk : sub.PubSub.writeFails (exe.BaseName ++ ":" ++ msg.Channel) = false) :
    sub.handleRealtimeEvents msg w =
      ({ w with
          cache := GoMap.set (cacheFunctions sub.PubSub funcs w.cache []).1
                    (exe.BaseName ++ ":" ++ msg.Channel) (.ids (funcs.map ExecData.ID)) },
        .getExecEnv msg :: .cacheGet (exe.BaseName ++ ":" ++ msg.Channel) ::
          .listFunctionsByTrigger exe.BaseName msg.Channel ::
            ((cacheFunctions sub.PubSub funcs w.cache []).2.1 ++
              .cacheSet (exe.BaseName ++ ":" ++ msg.Channel) ::
                dispatch msg (GoMap.set (cacheFunctions sub.PubSub funcs w.cache []).1
                  (exe.BaseName ++ ":" ++ msg.Channel) (.ids (funcs.map ExecData.ID)))
                  (funcs.map ExecData.ID))) := by
  obtain ⟨e, he⟩ := getIds_error w.cache _ hmiss
  have hids := cacheFunctions_ids sub.PubSub funcs hwf w.cache []
  simp [Subscriber.handleRealtimeEvents, henv, he, hstore, hids, Volatilizer.SetTyped, hwk]

/-- The path of an index miss, a store answer and a failed index write. -/
theorem handleRealtimeEvents_index_write_fails (sub : Subscriber) (msg : Command) (w : World)
    (exe : ExecutionEnvironment) (funcs : List ExecData)
    (henv : sub.GetExecEnv msg = .ok exe)
    (hmiss : ∀ l, GoMap.get w.cache (exe.BaseName ++ ":" ++ msg.Channel) ≠ some (.ids l))
    (hstore : exe.ListFunctionsByTrigger exe.BaseName msg.Channel = .ok funcs)
    (hwf : ∀ f ∈ funcs, sub.PubSub.writeFails ("fn_" ++ f.ID) = false)
    (hwk : sub.PubSub.writeFails (exe.BaseName ++ ":" ++ msg.Channel) = true) :
    sub.handleRealtimeEvents msg w =
      ({ w with cache := (cacheFunctions sub.PubSub funcs w.cache []).1 },
        .getExecEnv msg :: .cacheGet (exe.BaseName ++ ":" ++ msg.Channel) ::
          .listFunctionsByTrigger exe.BaseName msg.Channel ::
            ((cacheFunctions sub.PubSub funcs w.cache []).2.1 ++
              .cacheSet (exe.BaseName ++ ":" ++ msg.Channel) ::
                .log .error "unable to publish message" ::
                  dispatch msg (cacheFunctions sub.PubSub funcs w.cache []).1
                    (funcs.map ExecData.ID))) := by
  obtain ⟨e, he⟩ := getIds_error w.cache _ hmiss
  have hids := cacheFunctions_ids sub.PubSub funcs hwf w.cache []
  simp [Subscriber.handleRealtimeEvents, henv, he, hstore, hids, Volatilizer.SetTyped, hwk]

/-- The path of an index miss, a store answer and a failed per-function write. -/
theorem handleRealtimeEvents_fn_write_fails (sub : Subscriber) (msg : Command) (w : World)
    (exe : ExecutionEnvironment) (funcs : List ExecData)
    (henv : sub.GetExecEnv msg = .ok exe)
    (hmiss : ∀ l, GoMap.get w.cache (exe.BaseName ++ ":" ++ msg.Channel) ≠ some (.ids l))
    (hstore : exe.ListFunctionsByTrigger exe.BaseName msg.Channel = .ok funcs)
    (hwf : ∃ f ∈ funcs, sub.PubSub.writeFails ("fn_" ++ f.ID) = true) :
    sub.handleRealtimeEvents msg w =
      ({ w with cache := (cacheFunctions sub.PubSub funcs w.cache []).1 },
        .getExecEnv msg :: .cacheGet (exe.BaseName ++ ":" ++ msg.Channel) ::
          .listFunctionsByTrigger exe.BaseName msg.Channel ::
            (cacheFunctions sub.PubSub funcs w.cache []).2.1) := by
  obtain ⟨e, he⟩ := getIds_error w.cache _ hmiss
  have hnone := cacheFunctions_abort sub.PubSub funcs hwf w.cache []
  simp [Subscriber.handleRealtimeEvents, henv, he, hstore, hnone]

/-! ## The trigger cache -/

/-- C4: from a cache with no index entry under `<tenant>:<channel>` and with
cache writes succeeding, the first call for that key makes exactly one
`ListFunctionsByTrigger` lookup and leaves in the cache the index entry (the
ids of the functions of the store, in store order) and an entry under
`fn_<id>` for every function, which holds a function of that id (that very
function when ids are distinct) unless `fn_<id>` is the index key itself; a
second call for the same key makes no `ListFunctionsByTrigger` lookup. -/
theorem first_call_fills_cache_second_hits (sub : Subscriber) (msg msg2 : Command) (w : World)
    (exe exe2 : ExecutionEnvironment) (funcs : List ExecData)
    (henv : sub.GetExecEnv msg = .ok exe)
    (hmiss : ∀ l, GoMap.get w.cache (exe.BaseName ++ ":" ++ msg.Channel) ≠ some (.ids l))
    (hstore : exe.ListFunctionsByTrigger exe.BaseName msg.Channel = .ok funcs)
    (hwrites : ∀ k, sub.PubSub.writeFails k = false)
    (henv2 : sub.GetExecEnv msg2 = .ok exe2)
    (hkey : exe2.BaseName = exe.BaseName ∧ msg2.Channel = msg.Channel) :
    count Effect.isStoreLookup (sub.handleRealtimeEvents msg w).2 = 1 ∧
    GoMap.get (sub.handleRealtimeEvents msg w).1.cache (exe.BaseName ++ ":" ++ msg.Channel) =
      some (.ids (funcs.map ExecData.ID)) ∧
    (∀ f ∈ funcs,
      (∃ v, GoMap.get (sub.handleRealtimeEvents msg w).1.cache ("fn_" ++ f.ID) = some v) ∧
      ("fn_" ++ f.ID ≠ exe.BaseName ++ ":" ++ msg.Channel →
        (∃ g ∈ funcs, g.ID = f.ID ∧
          GoMap.get (sub.handleRealtimeEvents msg w).1.cache ("fn_" ++ f.ID) = some (.fn g)) ∧
        ((funcs.map ExecData.ID).Nodup →
          GoMap.get (sub.handleRealtimeEvents msg w).1.cache ("fn_" ++ f.ID) =
            some (.fn f)))) ∧
    count Effect.isStoreLookup
      (sub.handleRealtimeEvents msg2 (sub.handleRealtimeEvents msg w).1).2 = 0 := by
  have hwf : ∀ f ∈ funcs, sub.PubSub.writeFails ("fn_" ++ f.ID) = false :=
    fun f _ => hwrites _
  have h1 := handleRealtimeEvents_loaded sub msg w exe funcs henv hmiss hstore hwf (hwrites _)
  have hindex : GoMap.get (sub.handleRealtimeEvents msg w).1.cache
      (exe.BaseName ++ ":" ++ msg.Channel) = some (.ids (funcs.map ExecData.ID)) := by
    rw [h1]; exact GoMap.get_set_same _ _ _
  refine ⟨?_, hindex, ?_, ?_⟩
  · rw [h1]
    have hcf := cacheFunctions_count_zero Effect.isStoreLookup sub.PubSub
      (fun _ => rfl) (fun _ _ => rfl) funcs w.cache []
    have hd := dispatch_count_zero Effect.isStoreLookup msg
      (GoMap.set (cacheFunctions sub.PubSub funcs w.cache []).1
        (exe.BaseName ++ ":" ++ msg.Channel) (.ids (funcs.map ExecData.ID)))
      (fun _ => rfl) (fun _ => rfl) (fun _ => rfl) (fun _ _ => rfl) (funcs.map ExecData.ID)
    simp only [count] at hcf hd ⊢
    simp [List.countP_cons, List.countP_append, Effect.isStoreLookup, hcf, hd]
  · intro f hf
    constructor
    · by_cases hk : "fn_" ++ f.ID = exe.BaseName ++ ":" ++ msg.Channel
      · exact ⟨_, hk ▸ hindex⟩
      · obtain ⟨g, _, _, hget⟩ := cacheFunctions_get_fn sub.PubSub funcs hwf w.cache [] f hf
        refine ⟨.fn g, ?_⟩
        rw [h1]
        simpa [GoMap.get_set_other _ _ _ _ hk] using hget
    · intro hk
      constructor
      · obtain ⟨g, hg, hid, hget⟩ := cacheFunctions_get_fn sub.PubSub funcs hwf w.cache [] f hf
        refine ⟨g, hg, hid, ?_⟩
        rw [h1]
        simpa [GoMap.get_set_other _ _ _ _ hk] using hget
      · intro hnodup
        have hget := cacheFunctions_get_self sub.PubSub funcs hwf hnodup w.cache [] f hf
        rw [h1]
        simpa [GoMap.get_set_other _ _ _ _ hk] using hget
  · have hhit : GoMap.get (sub.handleRealtimeEvents msg w).1.cache
        (exe2.BaseName ++ ":" ++ msg2.Channel) = some (.ids (funcs.map ExecData.ID)) := by
      rw [hkey.1, hkey.2]; exact hindex
    rw [handleRealtimeEvents_hit sub msg2 _ exe2 _ henv2 hhit]
    have hd := dispatch_count_zero Effect.isStoreLookup msg2
      (sub.handleRealtimeEvents msg w).1.cache
      (fun _ => rfl) (fun _ => rfl) (fun _ => rfl) (fun _ _ => rfl) (funcs.map ExecData.ID)
    simp only [count] at hd ⊢
    simp [List.countP_cons, Effect.isStoreLookup, hd]

/-- Witness of C4: tenant `T`, channel `orders`, functions `f1` and `f2`, from
the empty cache. -/
theorem first_call_fills_cache_second_hits_witness :
    (∀ l, GoMap.get emptyWorld.cache ("T" ++ ":" ++ "orders") ≠ some (.ids l)) ∧
    count Effect.isStoreLookup (primarySub.handleRealtimeEvents systemEvent emptyWorld).2 = 1 ∧
    GoMap.get (primarySub.handleRealtimeEvents systemEvent emptyWorld).1.cache "T:orders" =
      some (.ids ["f1", "f2"]) ∧
    count Effect.isStoreLookup (primarySub.handleRealtimeEvents userEvent
      (primarySub.handleRealtimeEvents systemEvent emptyWorld).1).2 = 0 :=
  have h := first_call_fills_cache_second_hits primarySub systemEvent userEvent emptyWorld
    tenantT tenantT [f1, f2] rfl (fun _ h => Option.noConfusion h) rfl (fun _ => rfl) rfl
    ⟨rfl, rfl⟩
  ⟨fun _ h => Option.noConfusion h, h.1, h.2.1, h.2.2.2⟩

/-- C9: when the index lookup misses and `ListFunctionsByTrigger` returns an
error, `handleRealtimeEvents` logs and returns: one store lookup, no cache
write, no execution, and the state is left as it was. -/
theorem store_failure_aborts_event (sub : Subscriber) (msg : Command) (w : World)
    (exe : ExecutionEnvironment) (err : String)
    (henv : sub.GetExecEnv msg = .ok exe)
    (hmiss : ∀ l, GoMap.get w.cache (exe.BaseName ++ ":" ++ msg.Channel) ≠ some (.ids l))
    (hstore : exe.ListFunctionsByTrigger exe.BaseName msg.Channel = .error err) :
    count Effect.isCacheSet (sub.handleRealtimeEvents msg w).2 = 0 ∧
    count Effect.isGoExecute (sub.handleRealtimeEvents msg w).2 = 0 ∧
    count Effect.isStoreLookup (sub.handleRealtimeEvents msg w).2 = 1 ∧
    (sub.handleRealtimeEvents msg w).1 = w ∧
    (sub.handleRealtimeEvents msg w).2 =
      [.getExecEnv msg, .cacheGet (exe.BaseName ++ ":" ++ msg.Channel),
       .listFunctionsByTrigger exe.BaseName msg.Channel,
       .log .error "error getting functions by trigger"] := by
  rw [handleRealtimeEvents_store_error sub msg w exe err henv hmiss hstore]
  exact ⟨rfl, rfl, rfl, rfl, rfl⟩

/-- Witness of C9: an event of tenant `T` while the store is down. -/
theorem store_failure_aborts_event_witness :
    (∀ l, GoMap.get emptyWorld.cache ("T" ++ ":" ++ "orders") ≠ some (.ids l)) ∧
    (brokenStoreSub.handleRealtimeEvents systemEvent emptyWorld).1 = emptyWorld ∧
    count Effect.isStoreLookup
      (brokenStoreSub.handleRealtimeEvents systemEvent emptyWorld).2 = 1 :=
  have h := store_failure_aborts_event brokenStoreSub systemEvent emptyWorld
    ⟨"T", fun _ _ => .error "store down"⟩ "store down" rfl
    (fun _ h => Option.noConfusion h) rfl
  ⟨fun _ h => Option.noConfusion h, h.2.2.2.1, h.2.2.1⟩

/-- Counterexample to C7: tenant `T` has `f1` and `f2` in the store, the index
lookup misses and the cache refuses the write of `fn_f1`; the call ends after
that write and launches no execution. -/
theorem fn_write_failure_stops_delivery :
    (∀ l, GoMap.get emptyWorld.cache "T:orders" ≠ some (.ids l)) ∧
    tenantT.ListFunctionsByTrigger "T" "orders" = .ok [f1, f2] ∧
    failingFnSub.PubSub.writeFails ("fn_" ++ f1.ID) = true ∧
    (failingFnSub.handleRealtimeEvents systemEvent emptyWorld).2 =
      [.getExecEnv systemEvent, .cacheGet "T:orders", .listFunctionsByTrigger "T" "orders",
       .cacheSet "fn_f1", .log .error "error adding function  to cache"] ∧
    count Effect.isGoExecute (failingFnSub.handleRealtimeEvents systemEvent emptyWorld).2 = 0 :=
  ⟨fun _ h => Option.noConfusion h, rfl, rfl, by decide, by decide⟩

/-! ## Execution scheduling and the receive loop -/

/-- C6, the code at tenant `T`, channel `orders`, functions `f1` and `f2`: two
goroutines are launched, and `exe.Data` is `f1` and `f2` at their launch; but
both hold the one pointer `exe`, so when the first goroutine runs after the
loop assigned `exe.Data = f2` (three effects later) it executes `f2`. -/
theorem shared_exe_pointer_runs_sibling :
    count Effect.isGoExecute (primarySub.handleRealtimeEvents systemEvent emptyWorld).2 = 2 ∧
    scheduled (primarySub.handleRealtimeEvents systemEvent emptyWorld).2 =
      [some f1, some f2] ∧
    executedWith (primarySub.handleRealtimeEvents systemEvent emptyWorld).2 [0, 0] =
      [some f1, some f2] ∧
    executedWith (primarySub.handleRealtimeEvents systemEvent emptyWorld).2 [3, 0] =
      [some f2, some f2] := by
  decide

/-- The loop of `Start` goes on after a value on `close`: the signals after
it are received like the ones before. -/
theorem loop_after_closed (sub : Subscriber) (mt : MsgTypes) (rest : List Signal) (w : World) :
    sub.loop mt (.closed :: rest) w =
      ((sub.loop mt rest w).1,
        .log .info "system event channel closed?!?" :: (sub.loop mt rest w).2) := by
  simp [Subscriber.loop, Subscriber.receive]

/-- C8, the code on the signals closed, then a db-created event: `Start` logs
the close and stays in its loop; the event that arrives after the close is
processed, and both functions of its channel are launched. -/
theorem start_processes_event_after_close :
    (primarySub.Start exampleTypes [.closed, .msg systemEvent] emptyWorld).2.take 3 =
      [.subscribe "sbsys", .log .info "system event channel closed?!?",
       .getExecEnv systemEvent] ∧
    count Effect.isGoExecute
      (primarySub.Start exampleTypes [.closed, .msg systemEvent] emptyWorld).2 = 2 := by
  decide

/-! ## Document creation -/

theorem GoMap.get_set {V : Type} (m : GoMap V) (k k2 : String) (v : V) :
    GoMap.get (GoMap.set m k v) k2 = if k2 = k then some v else GoMap.get m k2 := by
  by_cases h : k2 = k
  · subst h; simp [GoMap.get_set_same]
  · simp [h, GoMap.get_set_other _ _ _ _ h]

theorem GoMap.get_del {V : Type} (m : GoMap V) (k k2 : String) :
    GoMap.get (GoMap.del m k) k2 = if k2 = k then none else GoMap.get m k2 := by
  by_cases h : k2 = k
  · subst h; simp [GoMap.get_del_same]
  · simp [h, GoMap.get_del_other _ _ _ h]

/-- C10: when authentication and the insert succeed, `add` answers 201 with a
document that has every posted field other than `id`, `_id`, `accountId` and
`ownerId` with its posted value, the new object id under `id`, no `_id`, the
account id of the caller under `accountId` and the user id of the caller under
`ownerId`. -/
theorem add_returns_posted_fields {V : Type} [Inhabited V] (mt : MsgTypes)
    (req : AddRequest V) (conf : BaseConfig) (auth : Caller V) (posted : GoMap V)
    (hauth : req.extract = .ok (conf, auth))
    (hbody : req.body = .ok (.object posted))
    (hins : req.insertOne = .ok ()) :
    ∃ out, (Database.add mt req).response = .json 201 out ∧
      (∀ k, k ≠ "id" → k ≠ "_id" → k ≠ "accountId" → k ≠ "ownerId" →
        GoMap.get out k = GoMap.get posted k) ∧
      GoMap.get out "id" = some req.newObjectID ∧
      GoMap.get out "_id" = none ∧
      GoMap.get out "accountId" = some auth.AccountID ∧
      GoMap.get out "ownerId" = some auth.UserID := by
  have hresp : (Database.add mt req).response =
      .json 201 (GoMap.del (GoMap.set
        (GoMap.set (GoMap.set (GoMap.set
          (GoMap.del (GoMap.del (GoMap.del (GoMap.del posted "id") FieldID) FieldAccountID)
            FieldOwnerID)
          FieldID req.newObjectID) FieldAccountID auth.AccountID) FieldOwnerID auth.UserID)
        "id"
        ((GoMap.get (GoMap.set (GoMap.set (GoMap.set
          (GoMap.del (GoMap.del (GoMap.del (GoMap.del posted "id") FieldID) FieldAccountID)
            FieldOwnerID)
          FieldID req.newObjectID) FieldAccountID auth.AccountID) FieldOwnerID auth.UserID)
          FieldID).getD default)) FieldID) := by
    simp only [Database.add, hauth, hbody, hins]
  refine ⟨_, hresp, ?_, ?_, ?_, ?_, ?_⟩
  · intro k h1 h2 h3 h4
    simp [GoMap.get_set, GoMap.get_del, FieldID, FieldAccountID, FieldOwnerID, h1, h2, h3, h4]
  · simp [GoMap.get_set, GoMap.get_del, FieldID, FieldAccountID, FieldOwnerID]
  · simp [GoMap.get_set, GoMap.get_del, FieldID, FieldAccountID, FieldOwnerID]
  · simp [GoMap.get_set, GoMap.get_del, FieldID, FieldAccountID, FieldOwnerID]
  · simp [GoMap.get_set, GoMap.get_del, FieldID, FieldAccountID, FieldOwnerID]

/-- Witness of C10: the task posted by `u1` of account `a1`. -/
theorem add_returns_posted_fields_witness :
    addTask.extract = .ok (⟨"b1", "base1", []⟩, ⟨"a1", "u1", 0⟩) ∧
    addTask.body = .ok (.object postedTask) ∧
    addTask.insertOne = .ok () ∧
    ∃ out, (Database.add exampleTypes addTask).response = .json 201 out ∧
      (∀ k, k ≠ "id" → k ≠ "_id" → k ≠ "accountId" → k ≠ "ownerId" →
        GoMap.get out k = GoMap.get postedTask k) ∧
      GoMap.get out "id" = some "oid1" ∧
      GoMap.get out "_id" = none ∧
      GoMap.get out "accountId" = some "a1" ∧
      GoMap.get out "ownerId" = some "u1" :=
  ⟨rfl, rfl, rfl,
    add_returns_posted_fields exampleTypes addTask ⟨"b1", "base1", []⟩ ⟨"a1", "u1", 0⟩
      postedTask rfl rfl rfl⟩

/-! ## Partial dispatch -/

theorem launchedFrom_neutral (cur : Option ExecData) (head rest : List Effect)
    (h : ∀ e ∈ head, e.isNeutral = true) :
    launchedFrom cur (head ++ rest) = launchedFrom cur rest := by
  induction head with
  | nil => rfl
  | cons e tl ih =>
    have he := h e (List.mem_cons_self _ _)
    have ih2 := ih (fun x hx => h x (List.mem_cons_of_mem _ hx))
    cases e <;> simp_all [launchedFrom, Effect.isNeutral]

theorem count_goExecute_neutral (head : List Effect) (h : ∀ e ∈ head, e.isNeutral = true) :
    count Effect.isGoExecute head = 0 := by
  unfold count
  rw [List.countP_eq_zero]
  intro e he
  have := h e he
  cases e <;> simp_all [Effect.isNeutral, Effect.isGoExecute]

theorem dataAfter_step (done tl : List Effect) (e : Effect) :
    dataAfter (done ++ e :: tl) (done.length + 1) =
      (match e with
        | .setData fn => some fn
        | _ => dataAfter done done.length) := by
  have htake : List.take (done.length + 1) (done ++ e :: tl) = done ++ [e] := by
    simp [List.take_append_eq_append_take]
  have hdone : List.take done.length done = done := List.take_length done
  unfold dataAfter
  rw [htake, hdone, List.foldl_append]
  rfl

/-- The list `scheduled` is `launchedFrom` started with no definition. -/
theorem scheduled_from (done rest : List Effect) :
    (goPositions rest done.length).map (fun p => dataAfter (done ++ rest) (p + 1)) =
      launchedFrom (dataAfter done done.length) rest := by
  induction rest generalizing done with
  | nil => rfl
  | cons e tl ih =>
    have hlen : (done ++ [e]).length = done.length + 1 := by simp
    have happ : done ++ e :: tl = (done ++ [e]) ++ tl := by simp
    have ih2 := ih (done ++ [e])
    have hstep := dataAfter_step done tl e
    have hstep2 := dataAfter_step done [] e
    rw [hlen, ← happ] at ih2
    rw [hstep2] at ih2
    cases e <;> simp only [goPositions, launchedFrom, List.map_cons, ih2, hstep]

theorem scheduled_eq_launchedFrom (effs : List Effect) :
    scheduled effs = launchedFrom none effs := by
  have h := scheduled_from [] effs
  simpa [scheduled, dataAfter] using h

theorem getFn_error (c : GoMap CacheVal) (key : String)
    (hfail : ∀ g, GoMap.get c key ≠ some (.fn g)) :
    ∃ e, Volatilizer.getFn c key = .error e := by
  unfold Volatilizer.getFn
  cases h : GoMap.get c key with
  | none => exact ⟨_, rfl⟩
  | some v =>
    cases v with
    | fn d => exact absurd h (hfail d)
    | ids l => exact ⟨_, rfl⟩

/-- The dispatch loop ends at the first id whose read fails. -/
theorem dispatch_stops (msg : Command) (c : GoMap CacheVal) (pre : List String) (id : String)
    (post : List String)
    (hpre : ∀ x ∈ pre, ∃ g, GoMap.get c ("fn_" ++ x) = some (.fn g))
    (hfail : ∀ g, GoMap.get c ("fn_" ++ id) ≠ some (.fn g)) :
    dispatch msg c (pre ++ id :: post) =
      dispatch msg c pre ++
        [.cacheGet ("fn_" ++ id), .log .error "error getting function out of cache"] := by
  induction pre with
  | nil =>
    obtain ⟨e, he⟩ := getFn_error c _ hfail
    simp [dispatch, he]
  | cons x rest ih =>
    obtain ⟨g, hg⟩ := hpre x (List.mem_cons_self _ _)
    have ih2 := ih (fun y hy => hpre y (List.mem_cons_of_mem _ hy))
    simp [dispatch, Volatilizer.getFn, hg, ih2]

/-- The launches of the dispatch loop over ids that can all be read: one per
id, each with the definition the cache holds under `fn_<id>`. -/
theorem launchedFrom_dispatch (msg : Command) (c : GoMap CacheVal) (tail : List Effect)
    (htail : ∀ e ∈ tail, e.isNeutral = true) (pre : List String)
    (hpre : ∀ x ∈ pre, ∃ g, GoMap.get c ("fn_" ++ x) = some (.fn g)) :
    ∀ cur, launchedFrom cur (dispatch msg c pre ++ tail) =
      pre.map (fun x => (Volatilizer.getFn c ("fn_" ++ x)).toOption) := by
  induction pre with
  | nil =>
    intro cur
    have h := launchedFrom_neutral cur tail [] (by simpa using htail)
    simpa [dispatch, launchedFrom] using h
  | cons x rest ih =>
    intro cur
    obtain ⟨g, hg⟩ := hpre x (List.mem_cons_self _ _)
    have ih2 := ih (fun y hy => hpre y (List.mem_cons_of_mem _ hy)) (some g)
    simp [dispatch, Volatilizer.getFn, hg, launchedFrom, ih2, Except.toOption]

theorem cacheFunctions_neutral (ps : Volatilizer) (funcs : List ExecData) :
    ∀ (c : GoMap CacheVal) (ids : List String),
      ∀ e ∈ (cacheFunctions ps funcs c ids).2.1, e.isNeutral = true := by
  induction funcs with
  | nil => intro c ids e he; simp [cacheFunctions] at he
  | cons fn rest ih =>
    intro c ids e he
    unfold cacheFunctions at he
    cases hset : ps.SetTyped c ("fn_" ++ fn.ID) (.fn fn) with
    | error err =>
      simp only [hset, List.mem_cons, List.mem_singleton, List.not_mem_nil, or_false] at he
      rcases he with rfl | rfl <;> rfl
    | ok c2 =>
      simp only [hset, List.mem_cons] at he
      rcases he with rfl | hmem
      · rfl
      · exact ih c2 (ids ++ [fn.ID]) e hmem

/-- Whether the ids come from an index hit or were just loaded from the store,
what follows the effects of resolution is the dispatch loop over them, reading
the cache as the call leaves it. -/
theorem handleRealtimeEvents_then_dispatch (sub : Subscriber) (msg : Command) (w : World)
    (exe : ExecutionEnvironment) (ids : List String)
    (henv : sub.GetExecEnv msg = .ok exe)
    (hids : GoMap.get w.cache (exe.BaseName ++ ":" ++ msg.Channel) = some (.ids ids) ∨
      ((∀ l, GoMap.get w.cache (exe.BaseName ++ ":" ++ msg.Channel) ≠ some (.ids l)) ∧
        ∃ funcs, exe.ListFunctionsByTrigger exe.BaseName msg.Channel = .ok funcs ∧
          (∀ f ∈ funcs, sub.PubSub.writeFails ("fn_" ++ f.ID) = false) ∧
          funcs.map ExecData.ID = ids)) :
    ∃ head, (∀ e ∈ head, e.isNeutral = true) ∧
      (sub.handleRealtimeEvents msg w).2 =
        head ++ dispatch msg (sub.handleRealtimeEvents msg w).1.cache ids := by
  rcases hids with hhit | ⟨hmiss, funcs, hstore, hwf, hmap⟩
  · rw [handleRealtimeEvents_hit sub msg w exe ids henv hhit]
    refine ⟨[.getExecEnv msg, .cacheGet (exe.BaseName ++ ":" ++ msg.Channel)], ?_, rfl⟩
    intro e he
    simp only [List.mem_cons, List.mem_singleton, List.not_mem_nil, or_false] at he
    rcases he with rfl | rfl <;> rfl
  · subst hmap
    have hcf := cacheFunctions_neutral sub.PubSub funcs w.cache []
    by_cases hwk : sub.PubSub.writeFails (exe.BaseName ++ ":" ++ msg.Channel) = true
    · rw [handleRealtimeEvents_index_write_fails sub msg w exe funcs henv hmiss hstore hwf hwk]
      refine ⟨.getExecEnv msg :: .cacheGet (exe.BaseName ++ ":" ++ msg.Channel) ::
        .listFunctionsByTrigger exe.BaseName msg.Channel ::
          ((cacheFunctions sub.PubSub funcs w.cache []).2.1 ++
            [.cacheSet (exe.BaseName ++ ":" ++ msg.Channel),
             .log .error "unable to publish message"]), ?_, by simp⟩
      intro e he
      simp only [List.mem_cons, List.mem_append, List.mem_singleton, List.not_mem_nil,
        or_false] at he
      rcases he with rfl | rfl | rfl | hmem | rfl | rfl
      · rfl
      · rfl
      · rfl
      · exact hcf e hmem
      · rfl
      · rfl
    · have hwk2 : sub.PubSub.writeFails (exe.BaseName ++ ":" ++ msg.Channel) = false := by
        simpa using hwk
      rw [handleRealtimeEvents_loaded sub msg w exe funcs henv hmiss hstore hwf hwk2]
      refine ⟨.getExecEnv msg :: .cacheGet (exe.BaseName ++ ":" ++ msg.Channel) ::
        .listFunctionsByTrigger exe.BaseName msg.Channel ::
          ((cacheFunctions sub.PubSub funcs w.cache []).2.1 ++
            [.cacheSet (exe.BaseName ++ ":" ++ msg.Channel)]), ?_, by simp⟩
      intro e he
      simp only [List.mem_cons, List.mem_append, List.mem_singleton, List.not_mem_nil,
        or_false] at he
      rcases he with rfl | rfl | rfl | hmem | rfl
      · rfl
      · rfl
      · rfl
      · exact hcf e hmem
      · rfl

/-- C11: when the id list of an event (from an index hit, or just loaded from
the store) is `pre ++ id :: post`, the reads of `fn_<x>` succeed for the ids of
`pre` and the read of `fn_<id>` fails, then exactly the functions of `pre` are
launched, in order and each with the definition cached under its id, and the
call ends with the failed read and its log record: nothing at the position of
`id` or after it is launched. -/
theorem read_failure_gives_partial_dispatch (sub : Subscriber) (msg : Command) (w : World)
    (exe : ExecutionEnvironment) (pre : List String) (id : String) (post : List String)
    (henv : sub.GetExecEnv msg = .ok exe)
    (hids : GoMap.get w.cache (exe.BaseName ++ ":" ++ msg.Channel) =
        some (.ids (pre ++ id :: post)) ∨
      ((∀ l, GoMap.get w.cache (exe.BaseName ++ ":" ++ msg.Channel) ≠ some (.ids l)) ∧
        ∃ funcs, exe.ListFunctionsByTrigger exe.BaseName msg.Channel = .ok funcs ∧
          (∀ f ∈ funcs, sub.PubSub.writeFails ("fn_" ++ f.ID) = false) ∧
          funcs.map ExecData.ID = pre ++ id :: post))
    (hpre : ∀ x ∈ pre, ∃ g,
      GoMap.get (sub.handleRealtimeEvents msg w).1.cache ("fn_" ++ x) = some (.fn g))
    (hfail : ∀ g,
      GoMap.get (sub.handleRealtimeEvents msg w).1.cache ("fn_" ++ id) ≠ some (.fn g)) :
    count Effect.isGoExecute (sub.handleRealtimeEvents msg w).2 = pre.length ∧
    scheduled (sub.handleRealtimeEvents msg w).2 =
      pre.map (fun x =>
        (Volatilizer.getFn (sub.handleRealtimeEvents msg w).1.cache ("fn_" ++ x)).toOption) ∧
    (∃ head, (sub.handleRealtimeEvents msg w).2 =
      head ++ [.cacheGet ("fn_" ++ id), .log .error "error getting function out of cache"]) := by
  obtain ⟨head, hneutral, heffs⟩ :=
    handleRealtimeEvents_then_dispatch sub msg w exe (pre ++ id :: post) henv hids
  have hstop := dispatch_stops msg (sub.handleRealtimeEvents msg w).1.cache pre id post hpre hfail
  have htail : ∀ e ∈ [Effect.cacheGet ("fn_" ++ id),
      Effect.log .error "error getting function out of cache"], e.isNeutral = true := by
    intro e he
    simp only [List.mem_cons, List.mem_singleton, List.not_mem_nil, or_false] at he
    rcases he with rfl | rfl <;> rfl
  rw [hstop] at heffs
  refine ⟨?_, ?_, ?_⟩
  · have h1 := count_goExecute_neutral head hneutral
    have h2 := dispatch_all msg (sub.handleRealtimeEvents msg w).1.cache pre hpre
    have h3 := count_goExecute_neutral _ htail
    rw [heffs]
    simp only [count] at h1 h2 h3 ⊢
    simp only [List.countP_append, h1, h2, h3]
    omega
  · rw [scheduled_eq_launchedFrom]
    conv_lhs => rw [heffs]
    rw [launchedFrom_neutral none head _ hneutral]
    exact launchedFrom_dispatch msg _ _ htail pre hpre none
  · exact ⟨head ++ dispatch msg (sub.handleRealtimeEvents msg w).1.cache pre, by
      rw [List.append_assoc]; exact heffs⟩

/-- Witness of C11: the index of `T:orders` lists `f1`, `f2`, `f3` and only
`fn_f1` is cached; `f1` alone is launched. -/
theorem read_failure_gives_partial_dispatch_witness :
    GoMap.get halfCachedWorld.cache ("T" ++ ":" ++ "orders") =
      some (.ids (["f1"] ++ "f2" :: ["f3"])) ∧
    count Effect.isGoExecute (primarySub.handleRealtimeEvents systemEvent halfCachedWorld).2 =
      1 ∧
    scheduled (primarySub.handleRealtimeEvents systemEvent halfCachedWorld).2 = [some f1] :=
  have h := read_failure_gives_partial_dispatch primarySub systemEvent halfCachedWorld tenantT
    ["f1"] "f2" ["f3"] rfl (Or.inl rfl)
    (by
      intro x hx
      rw [List.mem_singleton] at hx
      subst hx
      exact ⟨f1, by decide⟩)
    (by
      intro g hg
      have hnone : GoMap.get (primarySub.handleRealtimeEvents systemEvent halfCachedWorld).1.cache
          ("fn_" ++ "f2") = none := by decide
      rw [hnone] at hg
      cases hg)
  ⟨rfl, h.1, h.2.1⟩

/-! ## The counter of an accepted event, and the counters of reachable states -/

/-- What `process` does to the counter map: nothing, or one store of the
loaded value (0 when absent) plus one, the loaded value being below 5. -/
theorem process_relax (sub : Subscriber) (mt : MsgTypes) (msg : Command) (w : World) :
    (sub.process mt msg w).1.relax = w.relax ∨
    ∃ n : Int, n < 5 ∧
      (GoMap.get w.relax msg.Auth.UserID = none ∧ n = 0 ∨
        GoMap.get w.relax msg.Auth.UserID = some (.int64 n)) ∧
      (sub.process mt msg w).1.relax = GoMap.set w.relax msg.Auth.UserID (.int64 (n + 1)) := by
  cases hs : mt.isSystem msg.Type_ with
  | true =>
    left
    rw [process_system sub mt msg w hs]
    exact handleRealtimeEvents_relax _ _ _
  | false =>
    cases hget : GoMap.get w.relax msg.Auth.UserID with
    | none =>
      right
      refine ⟨0, by omega, Or.inl ⟨rfl, rfl⟩, ?_⟩
      rw [process_fresh sub mt msg w hs hget]
      simp [handleRealtimeEvents_relax]
    | some v =>
      cases v with
      | foreign t =>
        left
        simp [Subscriber.process, hs, hget]
      | int64 n =>
        by_cases hn : n < 5
        · right
          refine ⟨n, hn, Or.inr rfl, ?_⟩
          rw [process_below sub mt msg w n hs hget hn]
          simp [handleRealtimeEvents_relax]
        · left
          rw [process_limit sub mt msg w n hs hget (by omega)]

theorem process_keeps_window (sub : Subscriber) (mt : MsgTypes) (msg : Command) (w : World)
    (hinv : ∀ k v, GoMap.get w.relax k = some v → v.inWindow = true) :
    ∀ k v, GoMap.get (sub.process mt msg w).1.relax k = some v → v.inWindow = true := by
  intro k v hk
  rcases process_relax sub mt msg w with hsame | ⟨n, hn, hload, hset⟩
  · rw [hsame] at hk
    exact hinv k v hk
  · rw [hset, GoMap.get_set] at hk
    by_cases hku : k = msg.Auth.UserID
    · rw [if_pos hku] at hk
      have hv : v = .int64 (n + 1) := (Option.some.inj hk).symm
      subst hv
      rcases hload with ⟨_, h0⟩ | hsome
      · subst h0
        decide
      · have hwin := hinv _ _ hsome
        simp only [AnyVal.inWindow, Bool.and_eq_true, decide_eq_true_eq] at hwin ⊢
        omega
    · rw [if_neg hku] at hk
      exact hinv k v hk

theorem run_keeps_window (sub : Subscriber) (mt : MsgTypes) :
    ∀ (steps : List Step) (w : World),
      (∀ k v, GoMap.get w.relax k = some v → v.inWindow = true) →
      ∀ k v, GoMap.get (sub.run mt steps w).relax k = some v → v.inWindow = true
  | [], _, hinv => hinv
  | .signal s :: rest, w, hinv => by
    have hstep : ∀ k v, GoMap.get (sub.receive mt s w).1.relax k = some v →
        v.inWindow = true := by
      cases s with
      | closed => exact hinv
      | msg m =>
        cases hp : sub.IsPrimaryInstance with
        | false => simpa [Subscriber.receive, hp] using hinv
        | true => simpa [Subscriber.receive, hp] using process_keeps_window sub mt m w hinv
    exact run_keeps_window sub mt rest _ hstep
  | .expire key :: rest, w, hinv => by
    have hstep : ∀ k v, GoMap.get (expire key w).relax k = some v → v.inWindow = true := by
      intro k v hk
      simp only [expire, GoMap.get_del] at hk
      by_cases hkk : k = key
      · rw [if_pos hkk] at hk; cases hk
      · rw [if_neg hkk] at hk; exact hinv k v hk
    exact run_keeps_window sub mt rest _ hstep

/-- C12: a user-triggered event of `u` whose rate check passes (`n` being the
counter of `u`, 0 when absent, and `n < 5`) stores `n + 1` before
`handleRealtimeEvents` starts, so the counter is `n + 1` afterwards whatever
the call does: also when `GetExecEnv` fails and when no function is
registered for the channel (the index lists none, or the store returns none),
in which cases nothing is launched. And in every state reached from
an empty counter map by received signals and expiries, every stored counter is
an `int64` between 1 and 5. -/
theorem accepted_event_takes_slot (sub : Subscriber) (mt : MsgTypes) (msg : Command)
    (w : World) (n : Int)
    (hs : mt.isSystem msg.Type_ = false)
    (hpass : n < 5 ∧
      (GoMap.get w.relax msg.Auth.UserID = none ∧ n = 0 ∨
        GoMap.get w.relax msg.Auth.UserID = some (.int64 n))) :
    ((sub.process mt msg w).1 =
        (sub.handleRealtimeEvents msg
          { w with relax := GoMap.set w.relax msg.Auth.UserID (.int64 (n + 1)) }).1 ∧
      ∃ pre, (∀ e ∈ pre, e = Effect.goExpire msg.Auth.UserID) ∧
        (sub.process mt msg w).2 = pre ++ (sub.handleRealtimeEvents msg
          { w with relax := GoMap.set w.relax msg.Auth.UserID (.int64 (n + 1)) }).2) ∧
    GoMap.get (sub.process mt msg w).1.relax msg.Auth.UserID = some (.int64 (n + 1)) ∧
    (∀ err, sub.GetExecEnv msg = .error err →
      count Effect.isGoExecute (sub.process mt msg w).2 = 0) ∧
    (∀ exe, sub.GetExecEnv msg = .ok exe →
      (GoMap.get w.cache (exe.BaseName ++ ":" ++ msg.Channel) = some (.ids []) ∨
        ((∀ l, GoMap.get w.cache (exe.BaseName ++ ":" ++ msg.Channel) ≠ some (.ids l)) ∧
          exe.ListFunctionsByTrigger exe.BaseName msg.Channel = .ok [])) →
      count Effect.isGoExecute (sub.process mt msg w).2 = 0) ∧
    (∀ (steps : List Step) (c : GoMap CacheVal) (k : String) (v : AnyVal),
      GoMap.get (sub.run mt steps ⟨[], c⟩).relax k = some v →
        ∃ m : Int, v = .int64 m ∧ 1 ≤ m ∧ m ≤ 5) := by
  obtain ⟨hn, hload⟩ := hpass
  have hshape : (sub.process mt msg w).1 =
        (sub.handleRealtimeEvents msg
          { w with relax := GoMap.set w.relax msg.Auth.UserID (.int64 (n + 1)) }).1 ∧
      ∃ pre, (∀ e ∈ pre, e = Effect.goExpire msg.Auth.UserID) ∧
        (sub.process mt msg w).2 = pre ++ (sub.handleRealtimeEvents msg
          { w with relax := GoMap.set w.relax msg.Auth.UserID (.int64 (n + 1)) }).2 := by
    rcases hload with ⟨hnone, h0⟩ | hsome
    · subst h0
      rw [process_fresh sub mt msg w hs hnone]
      exact ⟨rfl, [.goExpire msg.Auth.UserID], by simp, rfl⟩
    · rw [process_below sub mt msg w n hs hsome hn]
      exact ⟨rfl, [], by simp, rfl⟩
  have hgo : count Effect.isGoExecute (sub.process mt msg w).2 =
      count Effect.isGoExecute (sub.handleRealtimeEvents msg
        { w with relax := GoMap.set w.relax msg.Auth.UserID (.int64 (n + 1)) }).2 := by
    obtain ⟨_, pre, hpre, hp⟩ := hshape
    have hpre0 : List.countP Effect.isGoExecute pre = 0 := by
      rw [List.countP_eq_zero]
      intro e hmem
      rw [hpre e hmem]
      simp [Effect.isGoExecute]
    rw [hp]
    simp only [count, List.countP_append, hpre0, Nat.zero_add]
  refine ⟨hshape, ?_, ?_, ?_, ?_⟩
  · rw [hshape.1, handleRealtimeEvents_relax]
    exact GoMap.get_set_same _ _ _
  · intro err herr
    have hh : (sub.handleRealtimeEvents msg
        { w with relax := GoMap.set w.relax msg.Auth.UserID (.int64 (n + 1)) }).2 =
        [.getExecEnv msg, .log .error "cannot retrieve base from token"] := by
      simp [Subscriber.handleRealtimeEvents, herr]
    rw [hgo, hh]
    rfl
  · intro exe henv hnone
    have hids : GoMap.get w.cache (exe.BaseName ++ ":" ++ msg.Channel) = some (.ids []) ∨
        ((∀ l, GoMap.get w.cache (exe.BaseName ++ ":" ++ msg.Channel) ≠ some (.ids l)) ∧
          ∃ funcs, exe.ListFunctionsByTrigger exe.BaseName msg.Channel = .ok funcs ∧
            (∀ f ∈ funcs, sub.PubSub.writeFails ("fn_" ++ f.ID) = false) ∧
            funcs.map ExecData.ID = []) := by
      rcases hnone with hhit | ⟨hmiss, hstore⟩
      · exact Or.inl hhit
      · exact Or.inr ⟨hmiss, [], hstore, by simp, rfl⟩
    obtain ⟨head, hneutral, heffs⟩ := handleRealtimeEvents_then_dispatch sub msg
      { w with relax := GoMap.set w.relax msg.Auth.UserID (.int64 (n + 1)) } exe [] henv hids
    rw [hgo, heffs]
    simpa [dispatch] using count_goExecute_neutral head hneutral
  · intro steps c k v hk
    have hwin := run_keeps_window sub mt steps ⟨[], c⟩
      (fun k v h => by simp [GoMap.get] at h) k v hk
    cases v with
    | foreign t => simp [AnyVal.inWindow] at hwin
    | int64 m =>
      simp only [AnyVal.inWindow, Bool.and_eq_true, decide_eq_true_eq] at hwin
      exact ⟨m, rfl, hwin.1, hwin.2⟩

/-- Witness of C12: the first event of `u1` on an instance where no token
resolves: the counter is 1 although `GetExecEnv` failed and nothing ran. -/
theorem accepted_event_takes_slot_witness :
    exampleTypes.isSystem userEvent.Type_ = false ∧
    GoMap.get (badTokenSub.process exampleTypes userEvent emptyWorld).1.relax "u1" =
      some (.int64 1) ∧
    count Effect.isGoExecute (badTokenSub.process exampleTypes userEvent emptyWorld).2 = 0 :=
  have h := accepted_event_takes_slot badTokenSub exampleTypes userEvent emptyWorld 0
    (by decide) ⟨by decide, Or.inl ⟨rfl, rfl⟩⟩
  ⟨by decide, h.2.1, h.2.2.1 "bad token" rfl⟩

/-! ## Cache write failures -/

/-- The write loop when no write fails: one `SetTyped` per function, in order. -/
theorem cacheFunctions_effects (ps : Volatilizer) (funcs : List ExecData)
    (hw : ∀ f ∈ funcs, ps.writeFails ("fn_" ++ f.ID) = false) :
    ∀ (c : GoMap CacheVal) (ids : List String),
      (cacheFunctions ps funcs c ids).2.1 =
        funcs.map (fun f => Effect.cacheSet ("fn_" ++ f.ID)) := by
  induction funcs with
  | nil => intro c ids; rfl
  | cons fn rest ih =>
    intro c ids
    have h1 := hw fn (List.mem_cons_self _ _)
    have ih2 := ih (fun f hf => hw f (List.mem_cons_of_mem _ hf))
      (GoMap.set c ("fn_" ++ fn.ID) (.fn fn)) (ids ++ [fn.ID])
    simp [cacheFunctions, Volatilizer.SetTyped, h1, ih2]

/-- The write loop up to its first failed write: the writes before it, the
failed write, the log record, and nothing more; the cache is as the writes
before the failed one left it. -/
theorem cacheFunctions_first_failure (ps : Volatilizer) (pre : List ExecData) (f : ExecData)
    (post : List ExecData)
    (hpre : ∀ g ∈ pre, ps.writeFails ("fn_" ++ g.ID) = false)
    (hf : ps.writeFails ("fn_" ++ f.ID) = true) :
    ∀ (c : GoMap CacheVal) (ids : List String),
      (cacheFunctions ps (pre ++ f :: post) c ids).2.1 =
          pre.map (fun g => Effect.cacheSet ("fn_" ++ g.ID)) ++
            [.cacheSet ("fn_" ++ f.ID), .log .error "error adding function  to cache"] ∧
        (cacheFunctions ps (pre ++ f :: post) c ids).1 = (cacheFunctions ps pre c ids).1 := by
  induction pre with
  | nil =>
    intro c ids
    simp [cacheFunctions, Volatilizer.SetTyped, hf]
  | cons g rest ih =>
    intro c ids
    have h1 := hpre g (List.mem_cons_self _ _)
    have ih2 := ih (fun x hx => hpre x (List.mem_cons_of_mem _ hx))
      (GoMap.set c ("fn_" ++ g.ID) (.fn g)) (ids ++ [g.ID])
    simp [cacheFunctions, Volatilizer.SetTyped, h1, ih2.1, ih2.2]

/-- C7, amended: after an index miss and a store answer, a failed write of the
index entry is logged and does not end the call: the dispatch loop runs over
all ids of the store and every function is launched, in store order, with the
definition cached under its id (its own definition when ids are distinct). A
failed write of a per-function entry `fn_<id>` is logged and ends the call at
once: the effects stop with the failed write and its log record, so there is
no later write, no read and no launch. -/
theorem cache_write_failure_outcome (sub : Subscriber) (msg : Command) (w : World)
    (exe : ExecutionEnvironment) (funcs : List ExecData)
    (henv : sub.GetExecEnv msg = .ok exe)
    (hmiss : ∀ l, GoMap.get w.cache (exe.BaseName ++ ":" ++ msg.Channel) ≠ some (.ids l))
    (hstore : exe.ListFunctionsByTrigger exe.BaseName msg.Channel = .ok funcs) :
    ((∀ f ∈ funcs, sub.PubSub.writeFails ("fn_" ++ f.ID) = false) →
      sub.PubSub.writeFails (exe.BaseName ++ ":" ++ msg.Channel) = true →
        Effect.log .error "unable to publish message" ∈ (sub.handleRealtimeEvents msg w).2 ∧
        count Effect.isGoExecute (sub.handleRealtimeEvents msg w).2 = funcs.length ∧
        (sub.handleRealtimeEvents msg w).2 =
          [.getExecEnv msg, .cacheGet (exe.BaseName ++ ":" ++ msg.Channel),
            .listFunctionsByTrigger exe.BaseName msg.Channel] ++
          funcs.map (fun f => Effect.cacheSet ("fn_" ++ f.ID)) ++
          [.cacheSet (exe.BaseName ++ ":" ++ msg.Channel),
            .log .error "unable to publish message"] ++
          dispatch msg (sub.handleRealtimeEvents msg w).1.cache (funcs.map ExecData.ID) ∧
        scheduled (sub.handleRealtimeEvents msg w).2 =
          funcs.map (fun f =>
            (Volatilizer.getFn (sub.handleRealtimeEvents msg w).1.cache
              ("fn_" ++ f.ID)).toOption) ∧
        (∀ f ∈ funcs, ∃ g ∈ funcs, g.ID = f.ID ∧
          Volatilizer.getFn (sub.handleRealtimeEvents msg w).1.cache ("fn_" ++ f.ID) =
            .ok g) ∧
        ((funcs.map ExecData.ID).Nodup →
          scheduled (sub.handleRealtimeEvents msg w).2 = funcs.map some)) ∧
    ((∃ f ∈ funcs, sub.PubSub.writeFails ("fn_" ++ f.ID) = true) →
      count Effect.isGoExecute (sub.handleRealtimeEvents msg w).2 = 0) ∧
    (∀ (pre : List ExecData) (f : ExecData) (post : List ExecData),
      funcs = pre ++ f :: post →
      (∀ g ∈ pre, sub.PubSub.writeFails ("fn_" ++ g.ID) = false) →
      sub.PubSub.writeFails ("fn_" ++ f.ID) = true →
        (sub.handleRealtimeEvents msg w).2 =
          [.getExecEnv msg, .cacheGet (exe.BaseName ++ ":" ++ msg.Channel),
            .listFunctionsByTrigger exe.BaseName msg.Channel] ++
          pre.map (fun g => Effect.cacheSet ("fn_" ++ g.ID)) ++
          [.cacheSet ("fn_" ++ f.ID), .log .error "error adding function  to cache"] ∧
        (sub.handleRealtimeEvents msg w).1.relax = w.relax ∧
        (∀ k, (∀ g ∈ pre, "fn_" ++ g.ID ≠ k) →
          GoMap.get (sub.handleRealtimeEvents msg w).1.cache k = GoMap.get w.cache k)) := by
  refine ⟨?_, ?_, ?_⟩
  · intro hwf hwk
    have h1 := handleRealtimeEvents_index_write_fails sub msg w exe funcs henv hmiss hstore
      hwf hwk
    have hcache : (sub.handleRealtimeEvents msg w).1.cache =
        (cacheFunctions sub.PubSub funcs w.cache []).1 := by rw [h1]
    have heffs : (sub.handleRealtimeEvents msg w).2 =
        [.getExecEnv msg, .cacheGet (exe.BaseName ++ ":" ++ msg.Channel),
          .listFunctionsByTrigger exe.BaseName msg.Channel] ++
        funcs.map (fun f => Effect.cacheSet ("fn_" ++ f.ID)) ++
        [.cacheSet (exe.BaseName ++ ":" ++ msg.Channel),
          .log .error "unable to publish message"] ++
        dispatch msg (sub.handleRealtimeEvents msg w).1.cache (funcs.map ExecData.ID) := by
      rw [hcache, h1, cacheFunctions_effects sub.PubSub funcs hwf]
      simp
    have hget : ∀ f ∈ funcs, ∃ g ∈ funcs, g.ID = f.ID ∧
        GoMap.get (sub.handleRealtimeEvents msg w).1.cache ("fn_" ++ f.ID) = some (.fn g) := by
      intro f hf
      rw [hcache]
      exact cacheFunctions_get_fn sub.PubSub funcs hwf w.cache [] f hf
    have hall : ∀ id ∈ funcs.map ExecData.ID, ∃ g,
        GoMap.get (sub.handleRealtimeEvents msg w).1.cache ("fn_" ++ id) = some (.fn g) := by
      intro id hid
      obtain ⟨f, hf, rfl⟩ := List.mem_map.mp hid
      obtain ⟨g, _, _, hg⟩ := hget f hf
      exact ⟨g, hg⟩
    have hhead : ∀ e ∈ ([.getExecEnv msg, .cacheGet (exe.BaseName ++ ":" ++ msg.Channel),
          .listFunctionsByTrigger exe.BaseName msg.Channel] ++
        funcs.map (fun f => Effect.cacheSet ("fn_" ++ f.ID)) ++
        [.cacheSet (exe.BaseName ++ ":" ++ msg.Channel),
          .log .error "unable to publish message"] : List Effect), e.isNeutral = true := by
      intro e he
      simp only [List.mem_append, List.mem_cons, List.mem_singleton, List.not_mem_nil,
        or_false, List.mem_map] at he
      rcases he with ((rfl | rfl | rfl) | ⟨f, _, rfl⟩) | rfl | rfl <;> rfl
    have hsched : scheduled (sub.handleRealtimeEvents msg w).2 =
        funcs.map (fun f =>
          (Volatilizer.getFn (sub.handleRealtimeEvents msg w).1.cache
            ("fn_" ++ f.ID)).toOption) := by
      rw [scheduled_eq_launchedFrom]
      conv_lhs => rw [heffs]
      rw [launchedFrom_neutral none _ _ hhead]
      have hd := launchedFrom_dispatch msg (sub.handleRealtimeEvents msg w).1.cache []
        (by simp) (funcs.map ExecData.ID) hall none
      rw [List.append_nil] at hd
      rw [hd, List.map_map]
      rfl
    refine ⟨?_, ?_, heffs, hsched, ?_, ?_⟩
    · rw [heffs]; simp
    · have h2 := dispatch_all msg (sub.handleRealtimeEvents msg w).1.cache _ hall
      have h3 := count_goExecute_neutral _ hhead
      rw [heffs]
      simp only [count] at h2 h3 ⊢
      rw [List.countP_append, h2, h3]
      simp
    · intro f hf
      obtain ⟨g, hg, hid, hgget⟩ := hget f hf
      exact ⟨g, hg, hid, by simp [Volatilizer.getFn, hgget]⟩
    · intro hnodup
      rw [hsched]
      apply List.map_congr_left
      intro f hf
      have hself := cacheFunctions_get_self sub.PubSub funcs hwf hnodup w.cache [] f hf
      rw [hcache]
      simp [Volatilizer.getFn, hself, Except.toOption]
  · intro hwf
    rw [handleRealtimeEvents_fn_write_fails sub msg w exe funcs henv hmiss hstore hwf]
    have hcf := cacheFunctions_count_zero Effect.isGoExecute sub.PubSub
      (fun _ => rfl) (fun _ _ => rfl) funcs w.cache []
    simp only [count] at hcf ⊢
    simp [List.countP_cons, Effect.isGoExecute, hcf]
  · intro pre f post hfuncs hpre hf
    subst hfuncs
    have hwf : ∃ g ∈ pre ++ f :: post, sub.PubSub.writeFails ("fn_" ++ g.ID) = true :=
      ⟨f, by simp, hf⟩
    have h1 := handleRealtimeEvents_fn_write_fails sub msg w exe (pre ++ f :: post) henv hmiss
      hstore hwf
    have h2 := cacheFunctions_first_failure sub.PubSub pre f post hpre hf w.cache []
    rw [h1, h2.1, h2.2]
    refine ⟨by simp, rfl, ?_⟩
    intro k hk
    exact cacheFunctions_get_other sub.PubSub pre k hk w.cache []

/-- Witness of C7, amended: when the cache refuses the index entry `T:orders`
both functions of tenant `T` are launched as themselves; when it refuses
`fn_f1` the call ends after that write and its log record. -/
theorem cache_write_failure_outcome_witness :
    (∀ l, GoMap.get emptyWorld.cache ("T" ++ ":" ++ "orders") ≠ some (.ids l)) ∧
    count Effect.isGoExecute
      (failingIndexSub.handleRealtimeEvents systemEvent emptyWorld).2 = 2 ∧
    scheduled (failingIndexSub.handleRealtimeEvents systemEvent emptyWorld).2 =
      [some f1, some f2] ∧
    (failingFnSub.handleRealtimeEvents systemEvent emptyWorld).2 =
      [.getExecEnv systemEvent, .cacheGet "T:orders", .listFunctionsByTrigger "T" "orders",
       .cacheSet "fn_f1", .log .error "error adding function  to cache"] :=
  have hA := (cache_write_failure_outcome failingIndexSub systemEvent emptyWorld tenantT
    [f1, f2] rfl (fun _ h => Option.noConfusion h) rfl).1 (by decide) (by decide)
  have hB := (cache_write_failure_outcome failingFnSub systemEvent emptyWorld tenantT
    [f1, f2] rfl (fun _ h => Option.noConfusion h) rfl).2.2 [] f1 [f2] rfl
    (by intro g hg; cases hg) (by decide)
  ⟨fun _ h => Option.noConfusion h, hA.2.1, hA.2.2.2.2.2 (by decide), hB.1⟩

end Core
